import Mathlib

/-!
Shallow embedding of the `neo4chain` Ethereum ETL (`src/eth/etl.py` and
`src/eth/ethereumetl/service/token_transfer_extractor.py`), followed by
theorems about its behaviour.

Conventions used throughout:

* A Python `HexBytes` value is modelled by `HexData.bytes h`, where `h` is the
  hex string that its `.hex()` method would return; a plain hex string is
  `HexData.str s`.  The two constructors keep the runtime-type distinction
  that the source dispatches on (`type(x) is HexBytes`).
* The Neo4j store is modelled as a list of property nodes and a list of typed
  edges; each Cypher query of the source is embedded as a function on this
  store, with `MATCH` clauses as filters, comma patterns as cartesian
  products, `CREATE` as list append and `MERGE` / `SET` with their
  match-or-create / additive-label semantics.
* The statement pair `results = t.run(...).values(); assert results[0][0] == 1`
  of the source is embedded by `EM.runAssert1`, which records the returned
  count together with the fact that it was asserted and fails like the Python
  `assert` does when the count is not 1; a bare `t.run(...)` with no returned
  count is `EM.runNoCheck`, recording an unasserted run.
-/

inductive HexData where
  | str (s : String)
  | bytes (h : String)
deriving DecidableEq

/-- The hex-string form of a value: `.hex()` on `HexBytes`, identity on `str`. -/
def HexData.hex : HexData → String
  | .str s => s
  | .bytes h => h

def hexDigitVal? (c : Char) : Option Nat :=
  if '0' ≤ c ∧ c ≤ '9' then some (c.toNat - '0'.toNat)
  else if 'a' ≤ c ∧ c ≤ 'f' then some (c.toNat - 'a'.toNat + 10)
  else if 'A' ≤ c ∧ c ≤ 'F' then some (c.toNat - 'A'.toNat + 10)
  else none

def hexCore? : List Char → Nat → Option Nat
  | [], acc => some acc
  | c :: cs, acc =>
    match hexDigitVal? c with
    | some d => hexCore? cs (acc * 16 + d)
    | none => none

/-- Modelled from the spec: `ethereumetl.utils.hex_to_dec` is imported by the
token-transfer extractor but is not among the sources.  Spec §4.1: "The value
word is hex-decoded to an unsigned integer; if decoding fails (not a valid
hex-encoded integer), the log is not a transfer".  Python's `int(s, 16)`
accepts an optional `0x`/`0X` prefix, so we strip one. -/
def hex_to_dec (s : String) : Option Nat :=
  let cs := s.toList
  let cs := if cs.take 2 = ['0', 'x'] ∨ cs.take 2 = ['0', 'X'] then cs.drop 2 else cs
  match cs with
  | [] => none
  | _ => hexCore? cs 0

/-- Modelled from the spec: `ethereumetl.utils.chunk_string` is imported but
not among the sources.  Spec §4.1 decodes the data payload "by splitting the
payload into fixed 32-byte (64 hex-character) words".  The fuel argument only
ensures structural termination; `fuel = length of the list` is enough since
every step consumes at least one character. -/
def chunkCharsAux : Nat → List Char → List (List Char)
  | 0, _ => []
  | _, [] => []
  | fuel + 1, c :: cs => (c :: cs.take 63) :: chunkCharsAux fuel (cs.drop 63)

def chunk_string (s : String) : List String :=
  (chunkCharsAux s.length s.toList).map String.mk

/-- Modelled from the spec: `ethereumetl.utils.to_normalized_address` is
imported but not among the sources.  Spec §3 and §4.1: addresses are
normalized "to lower-case 0x-prefixed form" (character-wise lower-casing). -/
def to_normalized_address (s : String) : String :=
  String.mk (s.toList.map Char.toLower)

/-- `split_to_words` from `token_transfer_extractor.py`: drop the `0x` prefix,
chunk into 64-character words, re-prefix each word with `0x`.  The Python
guard `if data and len(data) > 2` is equivalent to `len(data) > 2`. -/
def split_to_words (data : String) : List String :=
  if 2 < data.length then
    (chunk_string (String.mk (data.toList.drop 2))).map (fun w => "0x" ++ w)
  else []

/-- `word_to_address`: normalize the rightmost 40 hex characters of a word
(after `.hex()` on `HexBytes`); shorter words are normalized whole.  The
`param is None` branch of the source is unreachable here because the word
lists of the model contain no `None` entries. -/
def word_to_address (param : HexData) : String :=
  let p := param.hex
  if 40 ≤ p.length then
    to_normalized_address ("0x" ++ String.mk (p.toList.drop (p.length - 40)))
  else
    to_normalized_address p

def TRANSFER_EVENT_TOPIC : String :=
  "0xddf252ad1be2c89b69c2b068fc378daa952ba7f163c4a11628f55a4df523b3ef"

/-- The transfer record built by `EthTokenTransfer.__init__`/`_parse_transfer`. -/
structure EthTokenTransfer where
  token_address : String
  from_address : String
  to_address : String
  value : Nat
  transaction_hash : String
  log_index : Nat
  block_number : Nat
  value_raw : HexData
deriving DecidableEq

/-- A receipt log as handed to the extractor.  `topics` is an `Option` because
`receipt_log.get('topics')` can yield `None`; `transactionHash`, `logIndex`
and `blockNumber` stand for whichever of the snake/camel-case keys is
present. -/
structure Log where
  topics : Option (List HexData)
  data : String
  address : String
  transactionHash : HexData
  logIndex : Nat
  blockNumber : Nat
deriving DecidableEq

/-- `EthTokenTransferExtractor._parse_transfer`.  `hex_to_dec` is applied to
the hex form of the value word (the source applies it to the word object and
catches `ValueError`; spec §4.1 describes it as hex-decoding the word). -/
def _parse_transfer (topics : List HexData) (receipt_log : Log) : Option EthTokenTransfer :=
  let topics_with_data := topics ++ (split_to_words receipt_log.data).map HexData.str
  let transaction_hash := receipt_log.transactionHash.hex
  let log_index := receipt_log.logIndex
  match topics_with_data with
  | [_, w1, w2, w3] =>
    match hex_to_dec w3.hex with
    | none => none
    | some v =>
      some {
        token_address := to_normalized_address receipt_log.address
        from_address := word_to_address w1
        to_address := word_to_address w2
        value := v
        transaction_hash := transaction_hash
        log_index := log_index
        block_number := receipt_log.blockNumber
        value_raw := w3 }
  | _ => none

/-- `EthTokenTransferExtractor.extract_transfer_from_log`, including the
source's dispatch: a `str` first topic is compared against
`TRANSFER_EVENT_TOPIC`, while the `HexBytes` branch (`elif type(topics[0]) is
HexBytes`) calls `_parse_transfer` without any comparison. -/
def extract_transfer_from_log (receipt_log : Log) : Option EthTokenTransfer :=
  match receipt_log.topics with
  | none => none
  | some topics =>
    match topics with
    | [] => none
    | t0 :: _ =>
      match t0 with
      | .str s =>
        if s = TRANSFER_EVENT_TOPIC then _parse_transfer topics receipt_log else none
      | .bytes _ => _parse_transfer topics receipt_log

/-- A log whose first topic is the `HexBytes` form of a topic that is not the
Transfer signature, with two further indexed words and a one-word data
payload. -/
def c4Log : Log := {
  topics := some [
    HexData.bytes "0xdddddddddddddddddddddddddddddddddddddddddddddddddddddddddddddddd",
    HexData.str "0x000000000000000000000000aaaaaaaaaaaaaaaaaaaaaaaaaaaaaaaaaaaaaaaA",
    HexData.str "0x000000000000000000000000bbbbbbbbbbbbbbbbbbbbbbbbbbbbbbbbbbbbbbbb"]
  data := "0x0000000000000000000000000000000000000000000000000000000000000005"
  address := "0xC0FFEE"
  transactionHash := HexData.bytes "0xt4"
  logIndex := 0
  blockNumber := 7 }

/-- C4: the claim states that every log whose first topic differs from the
Transfer signature decodes to `none`, in both encodings.  On `c4Log` the
first topic is a `HexBytes` value different from the signature, yet the
decoder returns a transfer: the `HexBytes` branch of
`extract_transfer_from_log` skips the signature comparison. -/
theorem c4_hexbytes_topic_decodes_despite_mismatch :
    (c4Log.topics.getD []).head?.map HexData.hex ≠ some TRANSFER_EVENT_TOPIC ∧
    extract_transfer_from_log c4Log ≠ none := by
  constructor
  · decide
  · decide

/-- A raw transaction as returned by `get_block(..., full_transactions=True)`.
`hash`, `r` and `s` keep the `HexBytes`-vs-string distinction the source
dispatches on; `toAddr`/`fromAddr` stand for the `to`/`from` fields
(`to = None` signals contract creation).  `transactionIndex` is modelled
already decoded to a number (the hex-string branch at the top of
`insert_Transaction` is the RPC boundary decoding of spec §6). -/
structure RawTx where
  hash : HexData
  fromAddr : String
  toAddr : Option String
  value : Nat
  input : String
  nonce : Nat
  r : HexData
  s : HexData
  v : Nat
  transactionIndex : Nat
  gas : Nat
  gasPrice : Nat
deriving DecidableEq

structure Receipt where
  gasUsed : Nat
  logs : List Log
  contractAddress : String
deriving DecidableEq

/-- An uncle header; `number` is modelled already decoded to a number
(`hex_to_int` of `helpers.py` applied at the RPC boundary, spec §6). -/
structure Uncle where
  miner : String
  number : Nat
deriving DecidableEq

structure RawBlock where
  number : Nat
  hash : HexData
  timestamp : Nat
  size : Nat
  nonce : HexData
  difficulty : Nat
  totalDifficulty : Nat
  gasLimit : Nat
  gasUsed : Nat
  miner : String
  uncles : List HexData
  transactions : List RawTx
deriving DecidableEq

/-- The chain RPC collaborator plus the contract-classification service.
`isERC20`/`isERC721` stand for `EthContractService` classification, which is
imported but not among the sources; spec §4.3 describes it as a heuristic
over the selector sets of the bytecode, so it is kept as an abstract function
of the bytecode. -/
structure Chain where
  blockAt : Nat → RawBlock
  uncleAt : Nat → Nat → Uncle
  receiptOf : String → Receipt
  codeOf : String → String
  isERC20 : String → Bool
  isERC721 : String → Bool

/-- `EthereumETL.get_hash` on a transaction object: the hash field,
hex-encoded when it is `HexBytes`. -/
def get_hash (tx : RawTx) : String := tx.hash.hex

/-- Modelled from the spec: `reward_calculator.get_const_reward` is imported
but not among the sources.  Spec §4.2: the "constant block subsidy for the
block's number", an "external, versioned constant table keyed by chain era";
we use the mainnet era table (5, then 3, then 2 Ether in wei). -/
def get_const_reward (number : Nat) : Nat :=
  if number < 4370000 then 5000000000000000000
  else if number < 7280000 then 3000000000000000000
  else 2000000000000000000

/-- Modelled from the spec: `reward_calculator.get_uncle_reward` is imported
but not among the sources.  Spec §4.2 and the glossary: an uncle is "rewarded
at a fraction of the canonical subsidy based on depth from the including
block", the payout fraction determined by the nephew/uncle distance; this is
the canonical `(uncle + 8 - nephew) / 8` schedule. -/
def get_uncle_reward (nephewNumber uncleNumber : Nat) : Nat :=
  (uncleNumber + 8 - nephewNumber) * get_const_reward uncleNumber / 8

/-- `get_new_contract_address`: the receipt's `contractAddress`. -/
def get_new_contract_address (ch : Chain) (transaction_hash : String) : String :=
  (ch.receiptOf transaction_hash).contractAddress

/-- The extra fields `enhance_block` attaches to the block's `__dict__`,
together with the raw block. -/
structure EnhancedBlock where
  raw : RawBlock
  uncle_blocks : List Uncle
  created_contracts : List (String × String)
  transfers : List (String × List EthTokenTransfer)
  transaction_receipt : List (String × Receipt)
  reward : Nat

/-- Association-list read with a default; `enhance_block` populates every key
that the later stages look up, so the default mirrors code that cannot raise
`KeyError` on the values actually produced. -/
def lookupD (m : List (String × α)) (k : String) (d : α) : α :=
  match m with
  | [] => d
  | (k', v) :: rest => if k' = k then v else lookupD rest k d

/-- The per-transaction body of the `enhance_block` loop, threading the
created-contract map, transfer map, receipt map and running reward. -/
def enhanceStep (ch : Chain)
    (acc : List (String × String) × List (String × List EthTokenTransfer) ×
      List (String × Receipt) × Nat) (tx : RawTx) :
    List (String × String) × List (String × List EthTokenTransfer) ×
      List (String × Receipt) × Nat :=
  let (ccs, tfs, rcts, rw) := acc
  let transaction_hash := get_hash tx
  let ccs := if tx.toAddr = none then
      ccs ++ [(transaction_hash, get_new_contract_address ch transaction_hash)]
    else ccs
  let receipt := ch.receiptOf transaction_hash
  let transfers := receipt.logs.filterMap extract_transfer_from_log
  (ccs, tfs ++ [(transaction_hash, transfers)], rcts ++ [(transaction_hash, receipt)],
    rw + receipt.gasUsed * tx.gasPrice)

/-- `EthereumETL.enhance_block`: fetch uncle headers, start the reward at the
constant subsidy, and per transaction record the created contract (when `to`
is `None`), the receipt, the decoded transfers, and add the fee
`gasUsed * gasPrice` to the reward. -/
def enhance_block (ch : Chain) (b : RawBlock) : EnhancedBlock :=
  let uncle_blocks := (List.range b.uncles.length).map (fun i => ch.uncleAt b.number i)
  let folded := b.transactions.foldl (enhanceStep ch) ([], [], [], get_const_reward b.number)
  { raw := b
    uncle_blocks := uncle_blocks
    created_contracts := folded.1
    transfers := folded.2.1
    transaction_receipt := folded.2.2.1
    reward := folded.2.2.2 }

/-- The total transaction-fee sum `Σ gasUsed * gasPrice` over a list of
transactions, each fee taken from the transaction's receipt. -/
def feeSum (ch : Chain) (txs : List RawTx) : Nat :=
  txs.foldl (fun a tx => a + (ch.receiptOf (get_hash tx)).gasUsed * tx.gasPrice) 0

/-- The sum of `get_uncle_reward` over a block's uncle headers, as the claim
C2 would add it into the computed reward. -/
def uncleRewardSum (nephewNumber : Nat) (us : List Uncle) : Nat :=
  us.foldl (fun a u => a + get_uncle_reward nephewNumber u.number) 0

theorem foldl_add_shift (f : α → Nat) (l : List α) (n : Nat) :
    l.foldl (fun a x => a + f x) n = n + l.foldl (fun a x => a + f x) 0 := by
  induction l generalizing n with
  | nil => simp
  | cons x rest ih =>
    rw [List.foldl_cons, List.foldl_cons, ih (n + f x), ih (0 + f x)]
    omega

theorem enhanceFold_reward (ch : Chain) (txs : List RawTx) (ccs tfs rcts) (rw : Nat) :
    (txs.foldl (enhanceStep ch) (ccs, tfs, rcts, rw)).2.2.2 =
      rw + feeSum ch txs := by
  induction txs generalizing ccs tfs rcts rw with
  | nil => simp [feeSum]
  | cons tx rest ih =>
    show (rest.foldl (enhanceStep ch) (enhanceStep ch (ccs, tfs, rcts, rw) tx)).2.2.2 = _
    rw [show enhanceStep ch (ccs, tfs, rcts, rw) tx =
      (if tx.toAddr = none then
          ccs ++ [(get_hash tx, get_new_contract_address ch (get_hash tx))] else ccs,
        tfs ++ [(get_hash tx,
          (ch.receiptOf (get_hash tx)).logs.filterMap extract_transfer_from_log)],
        rcts ++ [(get_hash tx, ch.receiptOf (get_hash tx))],
        rw + (ch.receiptOf (get_hash tx)).gasUsed * tx.gasPrice) from rfl]
    rw [ih]
    simp only [feeSum]
    rw [List.foldl_cons,
      foldl_add_shift _ rest (0 + (ch.receiptOf (get_hash tx)).gasUsed * tx.gasPrice)]
    omega

/-- C2 (amended): the enriched block's computed reward is the constant block
subsidy for the block's number plus the transaction-fee sum
`Σ gasUsed * gasPrice`; uncle rewards do not enter it (`enhance_block` never
adds `get_uncle_reward` to `reward`; those amounts only become the values of
`UNCLE_REWARD` edges in `parse_block_header`). -/
theorem c2_enhance_block_reward (ch : Chain) (b : RawBlock) :
    (enhance_block ch b).reward =
      get_const_reward b.number + feeSum ch b.transactions := by
  show (b.transactions.foldl (enhanceStep ch) ([], [], [], get_const_reward b.number)).2.2.2 = _
  exact enhanceFold_reward ch b.transactions [] [] [] (get_const_reward b.number)

/-- A block with a single uncle and no transactions, used to separate the
computed reward from the claim's uncle-inclusive formula. -/
def c2Block : RawBlock := {
  number := 100
  hash := HexData.str "0xb2"
  timestamp := 1000
  size := 10
  nonce := HexData.str "0x01"
  difficulty := 2
  totalDifficulty := 3
  gasLimit := 8000000
  gasUsed := 0
  miner := "0xm1"
  uncles := [HexData.str "0xu1"]
  transactions := [] }

def c2Chain : Chain := {
  blockAt := fun _ => c2Block
  uncleAt := fun _ _ => { miner := "0xm2", number := 99 }
  receiptOf := fun _ => { gasUsed := 0, logs := [], contractAddress := "" }
  codeOf := fun _ => ""
  isERC20 := fun _ => false
  isERC721 := fun _ => false }

/-- C2 (counterexample): for `c2Block`, whose single uncle at height 99 earns
a positive `get_uncle_reward`, the enriched reward differs from the claim's
`constant subsidy + uncle rewards + fees` value: `enhance_block` leaves the
uncle sum out. -/
theorem c2_reward_omits_uncle_sum :
    (enhance_block c2Chain c2Block).reward ≠
      get_const_reward c2Block.number +
        uncleRewardSum c2Block.number (enhance_block c2Chain c2Block).uncle_blocks +
        feeSum c2Chain c2Block.transactions := by
  decide

/-- A Neo4j property value as the source passes them: strings, integers,
booleans, nulls, and raw `HexBytes`/string payloads (`value_raw`). -/
inductive Val where
  | s (x : String)
  | i (x : Int)
  | b (x : Bool)
  | hx (x : HexData)
  | null
deriving DecidableEq

structure Node where
  id : Nat
  labels : List String
  props : List (String × Val)
deriving DecidableEq

structure Edge where
  typ : String
  src : Nat
  tgt : Nat
  props : List (String × Val)
deriving DecidableEq

/-- The graph store: nodes, directed edges, and a fresh-id counter. -/
structure Store where
  nodes : List Node
  edges : List Edge
  nextId : Nat
deriving DecidableEq

def getProp (ps : List (String × Val)) (k : String) : Option Val :=
  match ps with
  | [] => none
  | (k', v) :: rest => if k' = k then some v else getProp rest k

/-- Replace the value at key `k`, appending the pair when absent (Cypher
`SET n.k = v`). -/
def setProp (ps : List (String × Val)) (k : String) (v : Val) : List (String × Val) :=
  match ps with
  | [] => [(k, v)]
  | (k', v') :: rest => if k' = k then (k, v) :: rest else (k', v') :: setProp rest k v

def memS (x : String) : List String → Bool
  | [] => false
  | y :: ys => if y = x then true else memS x ys

def hasLabel (n : Node) (l : String) : Bool :=
  memS l n.labels

/-- Whether a node matches a Cypher node pattern: it carries every listed
label and every listed property with the given value. -/
def nodeMatch (lbls : List String) (props : List (String × Val)) (n : Node) : Bool :=
  lbls.all (fun l => hasLabel n l) &&
    props.all (fun kv => getProp n.props kv.1 == some kv.2)

/-- All nodes of the store matching a pattern (Cypher `MATCH`). -/
def matchNodes (s : Store) (lbls : List String) (props : List (String × Val)) : List Node :=
  s.nodes.filter (nodeMatch lbls props)

/-- Cypher `CREATE` of a node: append a fresh node. -/
def addNode (s : Store) (lbls : List String) (props : List (String × Val)) : Store :=
  { nodes := s.nodes ++ [{ id := s.nextId, labels := lbls, props := props }]
    edges := s.edges
    nextId := s.nextId + 1 }

/-- Cypher `CREATE` of a relationship between two already-bound node ids. -/
def addEdge (s : Store) (ty : String) (src tgt : Nat) (props : List (String × Val)) : Store :=
  { s with edges := s.edges ++ [{ typ := ty, src := src, tgt := tgt, props := props }] }

/-- Cypher `MERGE (n:L1:L2 {props})`: create the node unless a node matching
the whole pattern exists. -/
def mergeNode (s : Store) (lbls : List String) (props : List (String × Val)) : Store :=
  if (matchNodes s lbls props).isEmpty then addNode s lbls props else s

/-- Cypher `SET n :lbl` on a single node: labels are a set, adding an
existing label is a no-op. -/
def addLabelTo (l : String) (n : Node) : Node :=
  if hasLabel n l then n else { n with labels := n.labels ++ [l] }

/-- Apply a node transformation to every node matching a pattern, leaving
other nodes untouched (`MATCH ... SET ...`). -/
def mapMatching (s : Store) (lbls : List String) (props : List (String × Val))
    (f : Node → Node) : Store :=
  { s with nodes := s.nodes.map (fun n => if nodeMatch lbls props n then f n else n) }

/-- A result row of the classifier's read queries: column name to node id,
`none` both for a `null` cell (failed `OPTIONAL MATCH`) and for an absent
key, matching Python's `dict.get`. -/
def rowGet (r : List (String × Option Nat)) (k : String) : Option Nat :=
  match r with
  | [] => none
  | (k', v) :: rest => if k' = k then v else rowGet rest k

/-- Rows of `MATCH (a:...) OPTIONAL MATCH (c:...) RETURN a, c`: one row per
`a`-match when the optional pattern fails, otherwise the cartesian product of
both match lists. -/
def optRows (aMs cMs : List Node) : List (List (String × Option Nat)) :=
  match aMs with
  | [] => []
  | a :: rest =>
    (if cMs.isEmpty then [[("a", some a.id), ("c", none)]]
     else cMs.map (fun c => [("a", some a.id), ("c", some c.id)])) ++ optRows rest cMs

/-- `try_get_EOA`: `MATCH (a:Address {address}) OPTIONAL MATCH
(c:Address:EOA {address}) return a, c`. -/
def try_get_EOA (s : Store) (addr : String) : List (List (String × Option Nat)) :=
  optRows (matchNodes s ["Address"] [("address", Val.s addr)])
    (matchNodes s ["Address", "EOA"] [("address", Val.s addr)])

/-- `write_EOA`: `MERGE (a:Address:EOA {address})`. -/
def write_EOA (s : Store) (addr : String) : Store :=
  mergeNode s ["Address", "EOA"] [("address", Val.s addr)]

/-- `set_EOA`: `MATCH (a:Address {address}) SET a :EOA`. -/
def set_EOA (s : Store) (addr : String) : Store :=
  mapMatching s ["Address"] [("address", Val.s addr)] (addLabelTo "EOA")

/-- `insert_Address_EOA`.  The source tests `result[0].get('eoa') == None`,
but the row keys are `a` and `c`, so the test is true whenever a row exists
and the `SET :EOA` write always runs then. -/
def insert_Address_EOA (s : Store) (addr : String) : Store :=
  match try_get_EOA s addr with
  | [] => write_EOA s addr
  | r :: _ => if rowGet r "eoa" = none then set_EOA s addr else s

def is_ERC20 (ch : Chain) (bytecode : String) : Bool := ch.isERC20 bytecode

def is_ERC721 (ch : Chain) (bytecode : String) : Bool := ch.isERC721 bytecode

/-- The nested `get_bytecode` of `insert_Address_Contract` (`eth.getCode`). -/
def get_bytecode (ch : Chain) (addr : String) : String := ch.codeOf addr

/-- `try_get_Contract`: `MATCH (a:Address {address}) OPTIONAL MATCH
(c:Address:Contract {address}) return a, c`. -/
def try_get_Contract (s : Store) (addr : String) : List (List (String × Option Nat)) :=
  optRows (matchNodes s ["Address"] [("address", Val.s addr)])
    (matchNodes s ["Address", "Contract"] [("address", Val.s addr)])

/-- `write_Contract`: `MERGE (a:Address:Contract {address, is_erc20,
is_erc721, bytecode})`. -/
def write_Contract (ch : Chain) (s : Store) (addr bytecode : String) : Store :=
  mergeNode s ["Address", "Contract"]
    [("address", Val.s addr), ("is_erc20", Val.b (is_ERC20 ch bytecode)),
      ("is_erc721", Val.b (is_ERC721 ch bytecode)), ("bytecode", Val.s bytecode)]

/-- `set_Contract`: `MATCH (a:Address {address}) set a :Contract
set a.is_erc20=..., a.is_erc721=...` (the bytecode is not stored here). -/
def set_Contract (ch : Chain) (s : Store) (addr bytecode : String) : Store :=
  mapMatching s ["Address"] [("address", Val.s addr)] (fun n =>
    let n := addLabelTo "Contract" n
    { n with props := (setProp (setProp n.props "is_erc20" (Val.b (is_ERC20 ch bytecode)))
        "is_erc721" (Val.b (is_ERC721 ch bytecode))) })

/-- `insert_Address_Contract`: create when no Address node exists, upgrade
when one exists without the Contract label, otherwise leave alone
(classification is not recomputed). -/
def insert_Address_Contract (ch : Chain) (s : Store) (addr : String) : Store :=
  match try_get_Contract s addr with
  | [] => write_Contract ch s addr (get_bytecode ch addr)
  | r :: _ =>
    if rowGet r "c" = none then set_Contract ch s addr (get_bytecode ch addr) else s

/-- `try_get_Addr`: `MATCH (a:Address {address}) return a`. -/
def try_get_Addr (s : Store) (addr : String) : List Node :=
  matchNodes s ["Address"] [("address", Val.s addr)]

/-- `insert_Address_Unknown`: create (as EOA, the weakest assumption) only
when no Address node exists at all. -/
def insert_Address_Unknown (s : Store) (addr : String) : Store :=
  if (try_get_Addr s addr).isEmpty then insert_Address_EOA s addr else s

/-- One `t.run(...)` of a GraphWriter operation: the count the query
returned and whether the source asserted `results[0][0] == 1` on it. -/
structure RunRec where
  rows : Nat
  asserted : Bool
deriving DecidableEq

/-- The effect monad of the GraphWriter: state-passing over the store plus a
log of executed runs, failing like an uncaught Python exception. -/
def EM (α : Type) : Type :=
  Store → List RunRec → Except String (α × Store × List RunRec)

def EM.pureImpl (a : α) : EM α := fun s l => .ok (a, s, l)

def EM.bindImpl (m : EM α) (f : α → EM β) : EM β := fun s l =>
  match m s l with
  | .ok (a, s', l') => f a s' l'
  | .error e => .error e

instance instMonadEM : Monad EM where
  pure := EM.pureImpl
  bind := EM.bindImpl

theorem EM.bind_def (m : EM α) (f : α → EM β) : m >>= f = EM.bindImpl m f := rfl

theorem EM.pure_def (a : α) : (pure a : EM α) = EM.pureImpl a := rfl

def EM.throwErr (msg : String) : EM α := fun _ _ => .error msg

def EM.getS : EM Store := fun s l => .ok (s, s, l)

def EM.modifyS (f : Store → Store) : EM Unit := fun s l => .ok ((), f s, l)

/-- Lift a read that may raise (exceptions propagate out of the session). -/
def EM.liftE (e : Store → Except String α) : EM α := fun s l =>
  match e s with
  | .ok a => .ok (a, s, l)
  | .error m => .error m

/-- `results = t.run(...).values(); assert results[0][0] == 1`: execute the
query, record the count as asserted, fail when it is not 1. -/
def EM.runAssert1 (q : Store → Store × Nat) : EM Unit := fun s l =>
  let (s', c) := q s
  if c = 1 then .ok ((), s', l ++ [{ rows := c, asserted := true }])
  else .error "AssertionError"

/-- A bare `t.run(...)` whose result is never inspected. -/
def EM.runNoCheck (q : Store → Store × Nat) : EM Unit := fun s l =>
  let (s', c) := q s
  .ok ((), s', l ++ [{ rows := c, asserted := false }])

/-- Cartesian product of two match lists (a Cypher comma pattern). -/
def pairs (xs ys : List Node) : List (Node × Node) :=
  xs.foldr (fun x acc => ys.map (fun y => (x, y)) ++ acc) []

/-- Cartesian product of three match lists. -/
def triples (xs ys zs : List Node) : List (Node × Node × Node) :=
  xs.foldr (fun x acc => (pairs ys zs).map (fun yz => (x, yz)) ++ acc) []

/-- The `create (b:Block {...}) return count(b)` of `parse_block_header`. -/
def qCreateBlock (b : EnhancedBlock) : Store → Store × Nat := fun s =>
  (addNode s ["Block"]
    [("number", Val.i b.raw.number),
      ("hash", Val.s b.raw.hash.hex),
      ("timestamp", Val.i b.raw.timestamp),
      ("size", Val.i b.raw.size),
      ("nonce", Val.s b.raw.nonce.hex),
      ("difficulty", Val.s (toString b.raw.difficulty)),
      ("totalDifficulty", Val.s (toString b.raw.totalDifficulty)),
      ("gasLimit", Val.s (toString b.raw.gasLimit)),
      ("gasUsed", Val.s (toString b.raw.gasUsed))], 1)

/-- `MATCH (b:Block {number}), (addr:Address {miner}) CREATE
p=(b)-[:BLOCK_REWARD {value}]->(addr) return count(p)`. -/
def qBlockReward (number : Nat) (miner reward : String) : Store → Store × Nat := fun s =>
  let ps := pairs (matchNodes s ["Block"] [("number", Val.i number)])
    (matchNodes s ["Address"] [("address", Val.s miner)])
  (ps.foldl (fun acc ba => addEdge acc "BLOCK_REWARD" ba.1.id ba.2.id
    [("value", Val.s reward)]) s, ps.length)

/-- The `UNCLE_REWARD` edge query of `parse_block_header`. -/
def qUncleReward (number : Nat) (miner reward : String) : Store → Store × Nat := fun s =>
  let ps := pairs (matchNodes s ["Block"] [("number", Val.i number)])
    (matchNodes s ["Address"] [("address", Val.s miner)])
  (ps.foldl (fun acc ba => addEdge acc "UNCLE_REWARD" ba.1.id ba.2.id
    [("value", Val.s reward)]) s, ps.length)

/-- `MATCH (tx:Transaction {hash}), (from:Address), (to:Address) CREATE
p=(from)-[:SEND]->(tx)-[:TO]->(to) return count(p)`. -/
def qSendTo (hash fromA toA : String) : Store → Store × Nat := fun s =>
  let ts := triples (matchNodes s ["Transaction"] [("hash", Val.s hash)])
    (matchNodes s ["Address"] [("address", Val.s fromA)])
    (matchNodes s ["Address"] [("address", Val.s toA)])
  (ts.foldl (fun acc t =>
    addEdge (addEdge acc "SEND" t.2.1.id t.1.id []) "TO" t.1.id t.2.2.id []) s, ts.length)

/-- `MATCH (tx:Transaction {hash}), (from:Address) CREATE
p=(from)-[:SEND]->(tx)-[:CALL_CONTRACT_CREATION]->(new_contract) return
count(p)`.  `new_contract` is unbound in the query, so Cypher creates a fresh
anonymous node per match; the `new_contract_address` parameter passed by the
source does not occur in the query text. -/
def qSendCcc (hash fromA : String) : Store → Store × Nat := fun s =>
  let ps := pairs (matchNodes s ["Transaction"] [("hash", Val.s hash)])
    (matchNodes s ["Address"] [("address", Val.s fromA)])
  (ps.foldl (fun acc tf =>
    let acc := addEdge acc "SEND" tf.2.id tf.1.id []
    let anonId := acc.nextId
    let acc := addNode acc [] []
    addEdge acc "CALL_CONTRACT_CREATION" tf.1.id anonId []) s, ps.length)

/-- `MATCH (b:Block {number}), (tx:Transaction {hash}) CREATE
p=(b)-[:CONTAINS]->(tx) return count(p)`. -/
def qContains (number : Nat) (hash : String) : Store → Store × Nat := fun s =>
  let ps := pairs (matchNodes s ["Block"] [("number", Val.i number)])
    (matchNodes s ["Transaction"] [("hash", Val.s hash)])
  (ps.foldl (fun acc bt => addEdge acc "CONTAINS" bt.1.id bt.2.id []) s, ps.length)

/-- The `CREATE (tx:Transaction {...})` of `insert_Transaction`; the query
returns nothing and the source inspects nothing. -/
def qCreateTx (tx : RawTx) : Store → Store × Nat := fun s =>
  (addNode s ["Transaction"]
    [("hash", Val.s tx.hash.hex),
      ("from", Val.s tx.fromAddr),
      ("to", match tx.toAddr with | some a => Val.s a | none => Val.null),
      ("value", Val.s (toString tx.value)),
      ("input", Val.s tx.input),
      ("nonce", Val.i tx.nonce),
      ("r", Val.s tx.r.hex),
      ("s", Val.s tx.s.hex),
      ("v", Val.i tx.v),
      ("transactionIndex", Val.i tx.transactionIndex),
      ("gas", Val.s (toString tx.gas)),
      ("gasPrice", Val.s (toString tx.gasPrice))], 1)

/-- The `CREATE (a:TokenTransfer {...}) return count(a)` of
`insert_TokenTransfer`: five properties, no `block_number`. -/
def qCreateTokenTransfer (tf : EthTokenTransfer) : Store → Store × Nat := fun s =>
  (addNode s ["TokenTransfer"]
    [("transaction_hash", Val.s tf.transaction_hash),
      ("log_index", Val.i tf.log_index),
      ("token_address", Val.s tf.token_address),
      ("value", Val.s (toString tf.value)),
      ("value_raw", Val.hx tf.value_raw)], 1)

/-- `MATCH (tf:TokenTransfer {transaction_hash, log_index}), (from:Address),
(to:Address) CREATE p=(from)-[:SEND_TOKEN]->(tf)-[:TOKEN_TO]->(to)`. -/
def qTokenEdges (tf : EthTokenTransfer) : Store → Store × Nat := fun s =>
  let ts := triples (matchNodes s ["TokenTransfer"]
      [("transaction_hash", Val.s tf.transaction_hash), ("log_index", Val.i tf.log_index)])
    (matchNodes s ["Address"] [("address", Val.s tf.from_address)])
    (matchNodes s ["Address"] [("address", Val.s tf.to_address)])
  (ts.foldl (fun acc t =>
    addEdge (addEdge acc "SEND_TOKEN" t.2.1.id t.1.id []) "TOKEN_TO" t.1.id t.2.2.id []) s,
    ts.length)

/-- `MATCH (tf:TokenTransfer {...}), (tx:Transaction {hash}) CREATE
p=(tx)-[:CALL_TOKEN_TRANSFER]->(tf)`. -/
def qCallTokenTransfer (tf : EthTokenTransfer) : Store → Store × Nat := fun s =>
  let ps := pairs (matchNodes s ["TokenTransfer"]
      [("transaction_hash", Val.s tf.transaction_hash), ("log_index", Val.i tf.log_index)])
    (matchNodes s ["Transaction"] [("hash", Val.s tf.transaction_hash)])
  (ps.foldl (fun acc ft => addEdge acc "CALL_TOKEN_TRANSFER" ft.2.id ft.1.id []) s, ps.length)

/-- `insert_Transaction`: a single `t.run` with no returned count and no
assertion (the hex-string `transactionIndex` decoding at its top is the RPC
boundary normalization of spec §6, modelled in `RawTx`). -/
def insert_Transaction (tx : RawTx) : EM Unit :=
  EM.runNoCheck (qCreateTx tx)

/-- `insert_TokenTransfer`: node creation plus the SEND_TOKEN/TOKEN_TO pair
plus the CALL_TOKEN_TRANSFER edge, each run asserted to count 1. -/
def insert_TokenTransfer (tf : EthTokenTransfer) : EM Unit := do
  EM.runAssert1 (qCreateTokenTransfer tf)
  EM.runAssert1 (qTokenEdges tf)
  EM.runAssert1 (qCallTokenTransfer tf)

/-- The `for uncle_block in block["uncle_blocks"]` loop of
`parse_block_header`. -/
def uncleRewardLoop (number : Nat) : List Uncle → EM Unit
  | [] => pure ()
  | u :: rest => do
    EM.runAssert1 (qUncleReward number u.miner (toString (get_uncle_reward number u.number)))
    uncleRewardLoop number rest

/-- `parse_block_header`: create the Block node, the BLOCK_REWARD edge to the
miner, and one UNCLE_REWARD edge per uncle header, each asserted. -/
def parse_block_header (b : EnhancedBlock) : EM Unit := do
  EM.runAssert1 (qCreateBlock b)
  EM.runAssert1 (qBlockReward b.raw.number b.raw.miner (toString b.reward))
  uncleRewardLoop b.raw.number b.uncle_blocks

/-- The `for transfer in block["transfers"][transaction_hash]` loop of
`parse_block_tx`. -/
def transferLoop : List EthTokenTransfer → EM Unit
  | [] => pure ()
  | t :: rest => do
    insert_TokenTransfer t
    transferLoop rest

/-- The `if transaction.to != None` edge block of `parse_block_tx`: either
the SEND/TO pair or (for `to = None`) the SEND/CALL_CONTRACT_CREATION query,
whose `new_contract_address` parameter is looked up (a missing key raises)
but unused by the query text. -/
def parse_block_tx_edges (b : EnhancedBlock) (tx : RawTx) : EM Unit :=
  match tx.toAddr with
  | some toA => EM.runAssert1 (qSendTo tx.hash.hex tx.fromAddr toA)
  | none =>
    match b.created_contracts.lookup (get_hash tx) with
    | none => EM.throwErr "KeyError: created_contracts"
    | some _newContractAddress => EM.runAssert1 (qSendCcc tx.hash.hex tx.fromAddr)

/-- `parse_block_tx`: create the Transaction node, then the edge block, then
the transfers, then a CONTAINS edge. -/
def parse_block_tx (b : EnhancedBlock) (tx : RawTx) : EM Unit := do
  insert_Transaction tx
  parse_block_tx_edges b tx
  transferLoop (lookupD b.transfers (get_hash tx) [])
  EM.runAssert1 (qContains b.raw.number (get_hash tx))

/-- `insert_block_conatins_tx` (sic): one asserted CONTAINS-edge creation. -/
def insert_block_conatins_tx (number : Nat) (transaction_hash : String) : EM Unit :=
  EM.runAssert1 (qContains number transaction_hash)

/-- `ensure_block_Addresses`: miner and uncle miners as EOA; per transaction
the sender as EOA and the target as Contract (receipt has logs) or Unknown,
or — for contract creations — the created contract as Contract; finally both
ends of every decoded transfer as Unknown. -/
def ensure_block_Addresses (ch : Chain) (b : EnhancedBlock) (s : Store) : Store :=
  let s := insert_Address_EOA s b.raw.miner
  let s := b.uncle_blocks.foldl (fun acc u => insert_Address_EOA acc u.miner) s
  b.raw.transactions.foldl (fun acc tx =>
    let transaction_hash := get_hash tx
    let acc := match tx.toAddr with
      | some toA =>
        let acc := insert_Address_EOA acc tx.fromAddr
        if 0 < (lookupD b.transaction_receipt transaction_hash
            { gasUsed := 0, logs := [], contractAddress := "" }).logs.length then
          insert_Address_Contract ch acc toA
        else
          insert_Address_Unknown acc toA
      | none =>
        let acc := insert_Address_EOA acc tx.fromAddr
        insert_Address_Contract ch acc (lookupD b.created_contracts transaction_hash "")
    (lookupD b.transfers transaction_hash []).foldl (fun a2 tf =>
      insert_Address_Unknown (insert_Address_Unknown a2 tf.from_address) tf.to_address) acc) s

/-- `get_local_Block`: `MATCH (b:Block {number}) RETURN b`, `None` unless
exactly one row comes back. -/
def get_local_Block (s : Store) (number : Nat) : Option Node :=
  match matchNodes s ["Block"] [("number", Val.i number)] with
  | [n] => some n
  | _ => none

/-- `get_local_Transaction`: `MATCH (tx:Transaction {hash}) RETURN tx`. -/
def get_local_Transaction (s : Store) (hash : String) : Option Node :=
  match matchNodes s ["Transaction"] [("hash", Val.s hash)] with
  | [n] => some n
  | _ => none

/-- `get_local_Transfer`: the query returns the row under the key `tf`, but
the source reads `results[0]['tx']`, so a present transfer raises `KeyError`;
only the no-row path returns `None`. -/
def get_local_Transfer (s : Store) (transaction_hash : String) (log_index : Nat) :
    Except String (Option Node) :=
  match matchNodes s ["TokenTransfer"]
      [("transaction_hash", Val.s transaction_hash), ("log_index", Val.i log_index)] with
  | [_] => .error "KeyError: tx"
  | _ => .ok none

/-- The per-transaction body of the block-exists branch of `check_task`: a
missing transaction is re-parsed (`parse_block_tx`, which itself writes a
CONTAINS edge) and then a second CONTAINS edge is written via
`insert_block_conatins_tx`; transfers are not inspected here. -/
def checkPresentStep (b : EnhancedBlock) (tx : RawTx) (s : Store) : EM Unit :=
  match get_local_Transaction s (get_hash tx) with
  | some _ => pure ()
  | none => do
    parse_block_tx b tx
    insert_block_conatins_tx b.raw.number (get_hash tx)

/-- The transaction loop of the block-exists branch of `check_task`. -/
def checkPresentLoop (b : EnhancedBlock) : List RawTx → EM Unit
  | [] => pure ()
  | tx :: rest => do
    let s ← EM.getS
    checkPresentStep b tx s
    checkPresentLoop b rest

/-- The transfer loop of the missing-block branch of `check_task`, threading
the `no_contains` local (a present transfer makes `get_local_Transfer`
raise, see there). -/
def transferCheckLoop (transaction_hash : String) :
    List EthTokenTransfer → Option Bool → EM (Option Bool)
  | [], nc => pure nc
  | t :: rest, nc => do
    let r ← EM.liftE (fun st => get_local_Transfer st transaction_hash t.log_index)
    match r with
    | some _ => transferCheckLoop transaction_hash rest nc
    | none => do
      insert_TokenTransfer t
      transferCheckLoop transaction_hash rest (some true)

/-- The transaction-existence check of the missing-block branch: a missing
transaction is re-parsed and binds `no_contains := True`. -/
def checkMissingTxStep (b : EnhancedBlock) (tx : RawTx) (s : Store) (nc : Option Bool) :
    EM (Option Bool) :=
  match get_local_Transaction s (get_hash tx) with
  | some _ => pure nc
  | none => do
    parse_block_tx b tx
    pure (some true)

/-- The `if no_contains:` statement: reading the still-unbound local raises
`UnboundLocalError`; a truthy value re-creates the contains-edge. -/
def noContainsCheck (b : EnhancedBlock) (transaction_hash : String) (nc : Option Bool) :
    EM Unit :=
  match nc with
  | none => EM.throwErr "UnboundLocalError: no_contains"
  | some true => insert_block_conatins_tx b.raw.number transaction_hash
  | some false => pure ()

/-- The transaction loop of the missing-block branch of `check_task`.  The
Python local `no_contains` is modelled as an `Option Bool`: `none` while the
variable is still unbound. -/
def checkMissingLoop (b : EnhancedBlock) : List RawTx → Option Bool → EM Unit
  | [], _ => pure ()
  | tx :: rest, nc => do
    let s ← EM.getS
    let nc ← checkMissingTxStep b tx s nc
    let nc ← transferCheckLoop (get_hash tx) (lookupD b.transfers (get_hash tx) []) nc
    noContainsCheck b (get_hash tx) nc
    checkMissingLoop b rest nc

/-- `check_task`: fetch and enrich the block, ensure its addresses (outside
any writer transaction), then repair depending on whether the Block node
exists. -/
def check_task (ch : Chain) (number : Nat) : EM Unit := do
  let block := enhance_block ch (ch.blockAt number)
  EM.modifyS (ensure_block_Addresses ch block)
  let s ← EM.getS
  match get_local_Block s number with
  | some _ => checkPresentLoop block block.raw.transactions
  | none => do
    parse_block_header block
    checkMissingLoop block block.raw.transactions none

/-- The per-block transaction persistence of `sync_task` (sequentialized:
the source dispatches `parse_block_tx` per transaction onto a pool and waits
for all of them). -/
def txsLoop (b : EnhancedBlock) : List RawTx → EM Unit
  | [] => pure ()
  | tx :: rest => do
    parse_block_tx b tx
    txsLoop b rest

/-- `sync_task` for one block: enrich, ensure addresses, persist header,
persist every transaction. -/
def sync_task (ch : Chain) (number : Nat) : EM Unit := do
  let block := enhance_block ch (ch.blockAt number)
  EM.modifyS (ensure_block_Addresses ch block)
  parse_block_header block
  txsLoop block block.raw.transactions

/-- `get_local_block_height`: `MATCH (b:Block) RETURN max(b.number)`, `-1`
when the store has no block. -/
def get_local_block_height (s : Store) : Int :=
  let numbers := (matchNodes s ["Block"] []).filterMap (fun n =>
    match getProp n.props "number" with
    | some (Val.i x) => some x
    | _ => none)
  match numbers.max? with
  | some m => m
  | none => -1

/-- The height-relevant events of one `work_flow` invocation. -/
inductive Ev where
  | readHeight (h : Int)
  | checkMissing (localHeight : Int)
  | syncBatch (lo hi : Int)
  | dailyPhase
deriving DecidableEq

/-- The fast-sync `while local_height + 1 < latest - blocks_co` loop of
`work_flow`: each iteration submits the batch
`range(local_height + 1, local_height + blocks_co + 1)` and then advances the
in-process `local_height` by `blocks_co` without consulting the store.  The
fuel argument only ensures termination of the model. -/
def syncLoopTrace : Nat → Int → Int → Int → List Ev
  | 0, _, _, _ => []
  | fuel + 1, localHeight, latest, co =>
    if localHeight + 1 < latest - co then
      Ev.syncBatch (localHeight + 1) (localHeight + co) ::
        syncLoopTrace fuel (localHeight + co) latest co
    else []

/-- The height flow of `work_flow`, stopping at the entry of the endless
daily polling phase: one `get_local_block_height` store read, the checker
mode decision, the syncer mode decision, and the fast-sync loop. -/
def work_flow_trace (s : Store) (latest : Int) (checkerOn syncerOn : Bool)
    (co : Int) : List Ev :=
  let local_height := get_local_block_height s
  [Ev.readHeight local_height] ++
    (if checkerOn ∧ 0 < local_height then [Ev.checkMissing local_height] else []) ++
    (if syncerOn ∧ local_height < latest - 1000 then
      syncLoopTrace (latest - local_height).toNat local_height latest co ++ [Ev.dailyPhase]
    else [])

def countReadHeight (evs : List Ev) : Nat :=
  (evs.filter (fun e => match e with | Ev.readHeight _ => true | _ => false)).length

def countSyncBatches (evs : List Ev) : Nat :=
  (evs.filter (fun e => match e with | Ev.syncBatch _ _ => true | _ => false)).length

/-- A store holding a single Block node at height 1. -/
def c7Store : Store :=
  { nodes := [{ id := 0, labels := ["Block"], props := [("number", Val.i 1)] }]
    edges := []
    nextId := 1 }

/-- C7 (counterexample): with local height 1, remote head 1400 and batch
size 500, `work_flow` runs two fast-sync iterations but performs only one
`max(Block.number)` store read — the loop advances a cached copy, so "every
iteration of the forward sync loop reads the local height from the store" is
false. -/
theorem c7_sync_loop_uses_cached_height :
    countReadHeight (work_flow_trace c7Store 1400 false true 500) = 1 ∧
    countSyncBatches (work_flow_trace c7Store 1400 false true 500) = 2 := by
  constructor
  · decide
  · decide

theorem syncLoopTrace_no_read (fuel : Nat) (localHeight latest co : Int) :
    countReadHeight (syncLoopTrace fuel localHeight latest co) = 0 := by
  induction fuel generalizing localHeight with
  | zero => rfl
  | succ n ih =>
    show countReadHeight (if localHeight + 1 < latest - co then _ else []) = 0
    split
    · show countReadHeight (Ev.syncBatch _ _ :: syncLoopTrace n (localHeight + co) latest co) = 0
      simp only [countReadHeight, List.filter_cons] at ih ⊢
      exact ih (localHeight + co)
    · rfl

/-- C7 (amended): every `work_flow` invocation reads the local height from
the store as `max(Block.number)` exactly once; both mode decisions use that
single read and the fast-sync loop iterations advance a cached copy without
further store reads. -/
theorem countReadHeight_append (a b : List Ev) :
    countReadHeight (a ++ b) = countReadHeight a + countReadHeight b := by
  simp [countReadHeight, List.filter_append]

theorem c7_work_flow_reads_height_once (s : Store) (latest : Int)
    (checkerOn syncerOn : Bool) (co : Int) :
    countReadHeight (work_flow_trace s latest checkerOn syncerOn co) = 1 := by
  have e1 : countReadHeight [Ev.checkMissing (get_local_block_height s)] = 0 := rfl
  have e2 : countReadHeight ([] : List Ev) = 0 := rfl
  have e3 : countReadHeight (syncLoopTrace (latest - get_local_block_height s).toNat
      (get_local_block_height s) latest co ++ [Ev.dailyPhase]) = 0 := by
    rw [countReadHeight_append, syncLoopTrace_no_read]
    rfl
  simp only [work_flow_trace, countReadHeight_append, apply_ite countReadHeight,
    e1, e2, e3, ite_self]
  rfl

theorem memS_append_left {x : String} {l1 : List String} (l2 : List String)
    (h : memS x l1 = true) : memS x (l1 ++ l2) = true := by
  induction l1 with
  | nil => exact absurd h (by simp [memS])
  | cons y ys ih =>
    simp only [memS, List.cons_append] at h ⊢
    split at h
    · rename_i hy
      rw [if_pos hy]
    · rename_i hy
      rw [if_neg hy]
      exact ih h

theorem memS_last (x : String) (l : List String) : memS x (l ++ [x]) = true := by
  induction l with
  | nil => simp [memS]
  | cons y ys ih =>
    simp only [List.cons_append, memS]
    split
    · rfl
    · exact ih

theorem addLabelTo_props (l : String) (n : Node) : (addLabelTo l n).props = n.props := by
  unfold addLabelTo
  split <;> rfl

theorem addLabelTo_id_eq (l : String) (n : Node) : (addLabelTo l n).id = n.id := by
  unfold addLabelTo
  split <;> rfl

theorem hasLabel_addLabelTo_self (l : String) (n : Node) :
    hasLabel (addLabelTo l n) l = true := by
  unfold addLabelTo
  split
  · assumption
  · exact memS_last l n.labels

theorem hasLabel_addLabelTo_of (l l' : String) (n : Node) (h : hasLabel n l' = true) :
    hasLabel (addLabelTo l n) l' = true := by
  unfold addLabelTo
  split
  · exact h
  · exact memS_append_left [l] h

theorem addLabelTo_addLabelTo (l : String) (n : Node) :
    addLabelTo l (addLabelTo l n) = addLabelTo l n := by
  have h := hasLabel_addLabelTo_self l n
  rw [show addLabelTo l (addLabelTo l n) =
    (if hasLabel (addLabelTo l n) l = true then addLabelTo l n
      else Node.mk (addLabelTo l n).id ((addLabelTo l n).labels ++ [l])
        (addLabelTo l n).props) from rfl]
  rw [if_pos h]

theorem getProp_setProp_self (ps : List (String × Val)) (k : String) (v : Val) :
    getProp (setProp ps k v) k = some v := by
  induction ps with
  | nil => simp [setProp, getProp]
  | cons kv rest ih =>
    obtain ⟨k', v'⟩ := kv
    simp only [setProp]
    split
    · simp [getProp]
    · simp only [getProp]
      split
      · simp_all
      · exact ih

theorem getProp_setProp_ne (ps : List (String × Val)) (k k' : String) (v : Val)
    (h : k' ≠ k) : getProp (setProp ps k' v) k = getProp ps k := by
  induction ps with
  | nil => simp [setProp, getProp, h]
  | cons kv rest ih =>
    obtain ⟨k0, v0⟩ := kv
    simp only [setProp]
    split
    · rename_i hk
      subst hk
      simp only [getProp]
      rw [if_neg h, if_neg h]
    · simp only [getProp]
      split
      · rfl
      · exact ih

theorem setProp_of_getProp (ps : List (String × Val)) (k : String) (v : Val)
    (h : getProp ps k = some v) : setProp ps k v = ps := by
  induction ps with
  | nil => simp [getProp] at h
  | cons kv rest ih =>
    obtain ⟨k0, v0⟩ := kv
    simp only [getProp] at h
    simp only [setProp]
    split
    · rename_i hk
      subst hk
      simp at h
      rw [h]
    · rename_i hk
      rw [if_neg hk] at h
      rw [ih h]

theorem nodeMatch_mono (lbls1 lbls2 : List String) (ps1 ps2 : List (String × Val))
    (n : Node) (hl : ∀ l ∈ lbls1, l ∈ lbls2) (hp : ∀ kv ∈ ps1, kv ∈ ps2)
    (h : nodeMatch lbls2 ps2 n = true) : nodeMatch lbls1 ps1 n = true := by
  simp only [nodeMatch, Bool.and_eq_true, List.all_eq_true] at h ⊢
  exact ⟨fun l hm => h.1 l (hl l hm), fun kv hm => h.2 kv (hp kv hm)⟩

theorem nodeMatch_of_labels_props (lbls : List String) (ps : List (String × Val))
    (n n' : Node) (h : nodeMatch lbls ps n = true)
    (hlab : ∀ l : String, hasLabel n l = true → hasLabel n' l = true)
    (hpr : ∀ kv ∈ ps, getProp n'.props kv.1 = getProp n.props kv.1) :
    nodeMatch lbls ps n' = true := by
  simp only [nodeMatch, Bool.and_eq_true, List.all_eq_true] at h ⊢
  constructor
  · intro l hm
    exact hlab l (h.1 l hm)
  · intro kv hm
    rw [hpr kv hm]
    exact h.2 kv hm

theorem map_id_of_fix (f : α → α) (l : List α) (h : ∀ x ∈ l, f x = x) :
    l.map f = l := by
  induction l with
  | nil => rfl
  | cons x rest ih =>
    simp only [List.map_cons]
    rw [h x (by simp), ih (fun y hy => h y (by simp [hy]))]

theorem matchNodes_addNode (s : Store) (lbls : List String)
    (props : List (String × Val)) (L : List String) (P : List (String × Val)) :
    matchNodes (addNode s lbls props) L P =
      matchNodes s L P ++
        (if nodeMatch L P { id := s.nextId, labels := lbls, props := props } then
          [{ id := s.nextId, labels := lbls, props := props }] else []) := by
  simp only [matchNodes, addNode, List.filter_append]
  congr 1
  by_cases h : nodeMatch L P { id := s.nextId, labels := lbls, props := props } = true
  · simp [List.filter_cons, h]
  · simp only [Bool.not_eq_true] at h
    simp [List.filter_cons, h]

theorem matchNodes_eq_nil_forall {s : Store} {L : List String} {P : List (String × Val)}
    (h : matchNodes s L P = []) : ∀ n ∈ s.nodes, nodeMatch L P n = false := by
  intro n hn
  have := List.filter_eq_nil_iff.mp h n hn
  simpa using this

theorem mapMatching_nodes (s : Store) (L : List String) (P : List (String × Val))
    (f : Node → Node) :
    (mapMatching s L P f).nodes =
      s.nodes.map (fun n => if nodeMatch L P n then f n else n) := rfl

theorem mapMatching_idem (s : Store) (L : List String) (P : List (String × Val))
    (f : Node → Node) (hf : ∀ n, f (f n) = f n) :
    mapMatching (mapMatching s L P f) L P f = mapMatching s L P f := by
  unfold mapMatching
  simp only [List.map_map]
  congr 1
  apply List.map_congr_left
  intro n _
  by_cases hn : nodeMatch L P n = true
  · simp only [Function.comp_apply, hn, if_pos]
    by_cases hfn : nodeMatch L P (f n) = true
    · simp [hfn, hf n]
    · simp [hfn]
  · simp only [Function.comp_apply, Bool.not_eq_true] at hn
    simp [hn]

theorem matchNodes_mapMatching_ne_nil (s : Store) (L : List String)
    (P : List (String × Val)) (f : Node → Node)
    (hmono : ∀ n, nodeMatch L P n = true → nodeMatch L P (f n) = true)
    (hne : matchNodes s L P ≠ []) :
    matchNodes (mapMatching s L P f) L P ≠ [] := by
  obtain ⟨a, ha⟩ := List.exists_mem_of_ne_nil _ hne
  have hmem : a ∈ s.nodes := (List.mem_filter.mp ha).1
  have hpred : nodeMatch L P a = true := (List.mem_filter.mp ha).2
  intro hcon
  have hall := matchNodes_eq_nil_forall hcon
  have hfa : (if nodeMatch L P a then f a else a) ∈ (mapMatching s L P f).nodes := by
    rw [mapMatching_nodes]
    exact List.mem_map_of_mem _ hmem
  have := hall _ hfa
  rw [if_pos hpred] at this
  rw [hmono a hpred] at this
  exact absurd this (by simp)

theorem optRows_nil_iff (aMs cMs : List Node) : optRows aMs cMs = [] ↔ aMs = [] := by
  cases aMs with
  | nil => simp [optRows]
  | cons a rest =>
    simp only [optRows]
    constructor
    · intro h
      exfalso
      rcases List.append_eq_nil.mp h with ⟨h1, _⟩
      split at h1
      · simp at h1
      · rename_i hc
        rw [List.map_eq_nil_iff] at h1
        rw [h1] at hc
        simp at hc
    · intro h
      exact absurd h (by simp)

theorem insert_Address_EOA_of_empty (s : Store) (addr : String)
    (h : matchNodes s ["Address"] [("address", Val.s addr)] = []) :
    insert_Address_EOA s addr = write_EOA s addr := by
  unfold insert_Address_EOA try_get_EOA
  rw [h]
  rfl

theorem insert_Address_EOA_of_nonempty (s : Store) (addr : String) (a : Node)
    (rest : List Node)
    (h : matchNodes s ["Address"] [("address", Val.s addr)] = a :: rest) :
    insert_Address_EOA s addr = set_EOA s addr := by
  unfold insert_Address_EOA try_get_EOA
  rw [h]
  cases hc : matchNodes s ["Address", "EOA"] [("address", Val.s addr)] with
  | nil => rfl
  | cons c cs => rfl

theorem matchNodes_sub_nil (s : Store) (addr : String) (l2 : String)
    (h : matchNodes s ["Address"] [("address", Val.s addr)] = []) :
    matchNodes s ["Address", l2] [("address", Val.s addr)] = [] := by
  unfold matchNodes
  apply List.filter_eq_nil_iff.mpr
  intro n hn
  have hfalse := matchNodes_eq_nil_forall h n hn
  intro hcon
  have : nodeMatch ["Address"] [("address", Val.s addr)] n = true := by
    apply nodeMatch_mono _ _ _ _ n _ _ hcon
    · intro l hl
      simp only [List.mem_singleton] at hl
      simp [hl]
    · intro kv hkv
      exact hkv
  rw [this] at hfalse
  exact absurd hfalse (by simp)

theorem newAddr_matches (idv : Nat) (addr : String) (l2 : String) :
    nodeMatch ["Address"] [("address", Val.s addr)]
      { id := idv, labels := ["Address", l2], props := [("address", Val.s addr)] } = true := by
  simp [nodeMatch, hasLabel, memS, getProp]

theorem write_EOA_of_no_addr (s : Store) (addr : String)
    (h : matchNodes s ["Address"] [("address", Val.s addr)] = []) :
    write_EOA s addr = addNode s ["Address", "EOA"] [("address", Val.s addr)] := by
  unfold write_EOA mergeNode
  rw [matchNodes_sub_nil s addr "EOA" h]
  rfl

theorem set_EOA_fix (t : Store) (addr : String)
    (h : ∀ n ∈ t.nodes, nodeMatch ["Address"] [("address", Val.s addr)] n = true →
      hasLabel n "EOA" = true) :
    set_EOA t addr = t := by
  unfold set_EOA mapMatching
  have hmap : t.nodes.map (fun n =>
      if nodeMatch ["Address"] [("address", Val.s addr)] n then addLabelTo "EOA" n else n) =
      t.nodes := by
    apply map_id_of_fix
    intro x hx
    by_cases hp : nodeMatch ["Address"] [("address", Val.s addr)] x = true
    · rw [if_pos hp]
      unfold addLabelTo
      rw [if_pos (h x hx hp)]
    · rw [if_neg (by simpa using hp)]
  rw [hmap]

theorem insert_Address_EOA_idem (s : Store) (addr : String) :
    insert_Address_EOA (insert_Address_EOA s addr) addr = insert_Address_EOA s addr := by
  cases hA : matchNodes s ["Address"] [("address", Val.s addr)] with
  | nil =>
    rw [insert_Address_EOA_of_empty s addr hA, write_EOA_of_no_addr s addr hA]
    have hmatch : matchNodes (addNode s ["Address", "EOA"] [("address", Val.s addr)])
        ["Address"] [("address", Val.s addr)] =
        [Node.mk s.nextId ["Address", "EOA"] [("address", Val.s addr)]] := by
      rw [matchNodes_addNode, hA, if_pos (newAddr_matches s.nextId addr "EOA")]
      rfl
    rw [insert_Address_EOA_of_nonempty _ addr _ [] hmatch]
    apply set_EOA_fix
    intro n hn hp
    rcases List.mem_append.mp hn with h1 | h2
    · have hfalse := matchNodes_eq_nil_forall hA n h1
      rw [hp] at hfalse
      exact absurd hfalse (by simp)
    · have hn2 : n = Node.mk s.nextId ["Address", "EOA"] [("address", Val.s addr)] := by
        simpa using h2
      rw [hn2]
      rfl
  | cons a rest =>
    rw [insert_Address_EOA_of_nonempty s addr a rest hA]
    have hne : matchNodes (set_EOA s addr) ["Address"] [("address", Val.s addr)] ≠ [] := by
      apply matchNodes_mapMatching_ne_nil
      · intro n hnm
        apply nodeMatch_of_labels_props _ _ n _ hnm
        · intro l hl
          exact hasLabel_addLabelTo_of _ _ _ hl
        · intro kv _
          rw [addLabelTo_props]
      · rw [hA]
        simp
    cases hB : matchNodes (set_EOA s addr) ["Address"] [("address", Val.s addr)] with
    | nil => exact absurd hB hne
    | cons b brest =>
      rw [insert_Address_EOA_of_nonempty _ addr b brest hB]
      exact mapMatching_idem s _ _ _ (addLabelTo_addLabelTo "EOA")

theorem matchNodes_bigger_nil (s : Store) (L1 L2 : List String)
    (P1 P2 : List (String × Val)) (hl : ∀ l ∈ L1, l ∈ L2) (hp : ∀ kv ∈ P1, kv ∈ P2)
    (h : matchNodes s L1 P1 = []) : matchNodes s L2 P2 = [] := by
  unfold matchNodes
  apply List.filter_eq_nil_iff.mpr
  intro n hn
  have hfalse := matchNodes_eq_nil_forall h n hn
  intro hcon
  rw [nodeMatch_mono L1 L2 P1 P2 n hl hp hcon] at hfalse
  exact absurd hfalse (by simp)

theorem matchNodes_ne_nil_of_mem (s : Store) (L : List String) (P : List (String × Val))
    (n : Node) (hn : n ∈ s.nodes) (hm : nodeMatch L P n = true) :
    matchNodes s L P ≠ [] := by
  intro h
  have := matchNodes_eq_nil_forall h n hn
  rw [hm] at this
  exact absurd this (by simp)

theorem insert_Address_Contract_of_empty (ch : Chain) (s : Store) (addr : String)
    (h : matchNodes s ["Address"] [("address", Val.s addr)] = []) :
    insert_Address_Contract ch s addr = write_Contract ch s addr (get_bytecode ch addr) := by
  unfold insert_Address_Contract try_get_Contract
  rw [h]
  rfl

theorem insert_Address_Contract_of_noC (ch : Chain) (s : Store) (addr : String)
    (a : Node) (rest : List Node)
    (hA : matchNodes s ["Address"] [("address", Val.s addr)] = a :: rest)
    (hc : matchNodes s ["Address", "Contract"] [("address", Val.s addr)] = []) :
    insert_Address_Contract ch s addr = set_Contract ch s addr (get_bytecode ch addr) := by
  unfold insert_Address_Contract try_get_Contract
  rw [hA, hc]
  rfl

theorem insert_Address_Contract_of_hasC (ch : Chain) (s : Store) (addr : String)
    (a : Node) (rest : List Node) (c : Node) (cs : List Node)
    (hA : matchNodes s ["Address"] [("address", Val.s addr)] = a :: rest)
    (hc : matchNodes s ["Address", "Contract"] [("address", Val.s addr)] = c :: cs) :
    insert_Address_Contract ch s addr = s := by
  unfold insert_Address_Contract try_get_Contract
  rw [hA, hc]
  rfl

theorem newContract_matches (idv : Nat) (addr : String) (e20 e721 : Bool)
    (bc : String) (L : List String) (hL : L = ["Address"] ∨ L = ["Address", "Contract"]) :
    nodeMatch L [("address", Val.s addr)]
      (Node.mk idv ["Address", "Contract"]
        [("address", Val.s addr), ("is_erc20", Val.b e20), ("is_erc721", Val.b e721),
          ("bytecode", Val.s bc)]) = true := by
  rcases hL with h | h <;> subst h <;> simp [nodeMatch, hasLabel, memS, getProp]

theorem write_Contract_of_no_addr (ch : Chain) (s : Store) (addr bc : String)
    (h : matchNodes s ["Address"] [("address", Val.s addr)] = []) :
    write_Contract ch s addr bc =
      addNode s ["Address", "Contract"]
        [("address", Val.s addr), ("is_erc20", Val.b (is_ERC20 ch bc)),
          ("is_erc721", Val.b (is_ERC721 ch bc)), ("bytecode", Val.s bc)] := by
  unfold write_Contract mergeNode
  have hnil : matchNodes s ["Address", "Contract"]
      [("address", Val.s addr), ("is_erc20", Val.b (is_ERC20 ch bc)),
        ("is_erc721", Val.b (is_ERC721 ch bc)), ("bytecode", Val.s bc)] = [] := by
    apply matchNodes_bigger_nil s ["Address"] _ [("address", Val.s addr)] _ _ _ h
    · intro l hl
      simp only [List.mem_singleton] at hl
      simp [hl]
    · intro kv hkv
      simp only [List.mem_singleton] at hkv
      simp [hkv]
  rw [hnil]
  rfl

theorem insert_Address_Contract_idem (ch : Chain) (s : Store) (addr : String) :
    insert_Address_Contract ch (insert_Address_Contract ch s addr) addr =
      insert_Address_Contract ch s addr := by
  cases hA : matchNodes s ["Address"] [("address", Val.s addr)] with
  | nil =>
    rw [insert_Address_Contract_of_empty ch s addr hA,
      write_Contract_of_no_addr ch s addr _ hA]
    have hA2 := matchNodes_addNode s ["Address", "Contract"]
      [("address", Val.s addr), ("is_erc20", Val.b (is_ERC20 ch (get_bytecode ch addr))),
        ("is_erc721", Val.b (is_ERC721 ch (get_bytecode ch addr))),
        ("bytecode", Val.s (get_bytecode ch addr))] ["Address"] [("address", Val.s addr)]
    rw [hA, if_pos (newContract_matches _ _ _ _ _ _ (Or.inl rfl))] at hA2
    have hC2 := matchNodes_addNode s ["Address", "Contract"]
      [("address", Val.s addr), ("is_erc20", Val.b (is_ERC20 ch (get_bytecode ch addr))),
        ("is_erc721", Val.b (is_ERC721 ch (get_bytecode ch addr))),
        ("bytecode", Val.s (get_bytecode ch addr))] ["Address", "Contract"]
      [("address", Val.s addr)]
    rw [matchNodes_sub_nil s addr "Contract" hA,
      if_pos (newContract_matches _ _ _ _ _ _ (Or.inr rfl))] at hC2
    exact insert_Address_Contract_of_hasC ch _ addr _ _ _ _ (by simpa using hA2)
      (by simpa using hC2)
  | cons a rest =>
    cases hC : matchNodes s ["Address", "Contract"] [("address", Val.s addr)] with
    | cons c cs =>
      have hfix := insert_Address_Contract_of_hasC ch s addr a rest c cs hA hC
      rw [hfix, hfix]
    | nil =>
      rw [insert_Address_Contract_of_noC ch s addr a rest hA hC]
      have hmono : ∀ n, nodeMatch ["Address"] [("address", Val.s addr)] n = true →
          nodeMatch ["Address"] [("address", Val.s addr)]
            (addLabelTo "Contract" n) = true := by
        intro n hn
        apply nodeMatch_of_labels_props _ _ n _ hn
        · intro l hl
          exact hasLabel_addLabelTo_of _ _ _ hl
        · intro kv _
          rw [addLabelTo_props]
      have hmono2 : ∀ n, nodeMatch ["Address"] [("address", Val.s addr)] n = true →
          nodeMatch ["Address"] [("address", Val.s addr)]
            (Node.mk (addLabelTo "Contract" n).id (addLabelTo "Contract" n).labels
              (setProp (setProp (addLabelTo "Contract" n).props "is_erc20"
                  (Val.b (is_ERC20 ch (get_bytecode ch addr)))) "is_erc721"
                (Val.b (is_ERC721 ch (get_bytecode ch addr))))) = true := by
        intro n hn
        apply nodeMatch_of_labels_props _ _ n _ hn
        · intro l hl
          exact hasLabel_addLabelTo_of _ _ _ hl
        · intro kv hkv
          simp only [List.mem_singleton] at hkv
          rw [hkv]
          show getProp _ "address" = _
          rw [getProp_setProp_ne _ _ _ _ (by decide),
            getProp_setProp_ne _ _ _ _ (by decide), addLabelTo_props]
      have haMem : a ∈ s.nodes ∧ nodeMatch ["Address"] [("address", Val.s addr)] a = true := by
        have : a ∈ matchNodes s ["Address"] [("address", Val.s addr)] := by
          rw [hA]; simp
        exact ⟨(List.mem_filter.mp this).1, (List.mem_filter.mp this).2⟩
      have htrans : (if nodeMatch ["Address"] [("address", Val.s addr)] a then
          (fun n => Node.mk (addLabelTo "Contract" n).id (addLabelTo "Contract" n).labels
            (setProp (setProp (addLabelTo "Contract" n).props "is_erc20"
                (Val.b (is_ERC20 ch (get_bytecode ch addr)))) "is_erc721"
              (Val.b (is_ERC721 ch (get_bytecode ch addr))))) a else a) ∈
          (set_Contract ch s addr (get_bytecode ch addr)).nodes := by
        show _ ∈ (mapMatching s _ _ _).nodes
        rw [mapMatching_nodes]
        exact List.mem_map_of_mem _ haMem.1
      rw [if_pos haMem.2] at htrans
      have hCne : matchNodes (set_Contract ch s addr (get_bytecode ch addr))
          ["Address", "Contract"] [("address", Val.s addr)] ≠ [] := by
        apply matchNodes_ne_nil_of_mem _ _ _ _ htrans
        simp only [nodeMatch, Bool.and_eq_true, List.all_eq_true]
        constructor
        · intro l hl
          rcases List.mem_cons.mp hl with h1 | h2
          · subst h1
            show hasLabel _ "Address" = true
            have := hmono2 a haMem.2
            simp only [nodeMatch, Bool.and_eq_true, List.all_eq_true] at this
            exact this.1 "Address" (by simp)
          · have h2' : l = "Contract" := by simpa using h2
            subst h2'
            show hasLabel _ "Contract" = true
            show memS "Contract" (addLabelTo "Contract" a).labels = true
            exact hasLabel_addLabelTo_self "Contract" a
        · intro kv hkv
          have := hmono2 a haMem.2
          simp only [nodeMatch, Bool.and_eq_true, List.all_eq_true] at this
          exact this.2 kv hkv
      have hAne : matchNodes (set_Contract ch s addr (get_bytecode ch addr))
          ["Address"] [("address", Val.s addr)] ≠ [] := by
        apply matchNodes_mapMatching_ne_nil
        · exact hmono2
        · rw [hA]
          simp
      cases hB : matchNodes (set_Contract ch s addr (get_bytecode ch addr))
          ["Address"] [("address", Val.s addr)] with
      | nil => exact absurd hB hAne
      | cons b brest =>
        cases hD : matchNodes (set_Contract ch s addr (get_bytecode ch addr))
            ["Address", "Contract"] [("address", Val.s addr)] with
        | nil => exact absurd hD hCne
        | cons d ds =>
          exact insert_Address_Contract_of_hasC ch _ addr b brest d ds hB hD

theorem insert_Address_Unknown_of_empty (s : Store) (addr : String)
    (h : matchNodes s ["Address"] [("address", Val.s addr)] = []) :
    insert_Address_Unknown s addr = insert_Address_EOA s addr := by
  unfold insert_Address_Unknown try_get_Addr
  rw [h]
  rfl

theorem insert_Address_Unknown_of_nonempty (s : Store) (addr : String) (a : Node)
    (rest : List Node)
    (h : matchNodes s ["Address"] [("address", Val.s addr)] = a :: rest) :
    insert_Address_Unknown s addr = s := by
  unfold insert_Address_Unknown try_get_Addr
  rw [h]
  rfl

theorem insert_Address_Unknown_idem (s : Store) (addr : String) :
    insert_Address_Unknown (insert_Address_Unknown s addr) addr =
      insert_Address_Unknown s addr := by
  cases hA : matchNodes s ["Address"] [("address", Val.s addr)] with
  | cons a rest =>
    have hfix := insert_Address_Unknown_of_nonempty s addr a rest hA
    rw [hfix, hfix]
  | nil =>
    rw [insert_Address_Unknown_of_empty s addr hA, insert_Address_EOA_of_empty s addr hA,
      write_EOA_of_no_addr s addr hA]
    have hmatch : matchNodes (addNode s ["Address", "EOA"] [("address", Val.s addr)])
        ["Address"] [("address", Val.s addr)] =
        [Node.mk s.nextId ["Address", "EOA"] [("address", Val.s addr)]] := by
      rw [matchNodes_addNode, hA, if_pos (newAddr_matches s.nextId addr "EOA")]
      rfl
    exact insert_Address_Unknown_of_nonempty _ addr _ _ hmatch

/-- C8: invoking `ensureEOA`/`ensureContract`/`ensureUnknown` twice in
succession on the same address leaves the graph store in exactly the state of
one invocation — no duplicate Address nodes and no duplicate labels — over
every starting store.  (`insert_Address_EOA` does re-run the redundant
`SET :EOA` write on the second call because of its `result[0].get('eoa')`
test, but Cypher label sets make that write a no-op on the state.) -/
theorem c8_address_ensures_idempotent :
    (∀ s addr, insert_Address_EOA (insert_Address_EOA s addr) addr =
      insert_Address_EOA s addr) ∧
    (∀ ch s addr, insert_Address_Contract ch (insert_Address_Contract ch s addr) addr =
      insert_Address_Contract ch s addr) ∧
    (∀ s addr, insert_Address_Unknown (insert_Address_Unknown s addr) addr =
      insert_Address_Unknown s addr) :=
  ⟨insert_Address_EOA_idem, insert_Address_Contract_idem, insert_Address_Unknown_idem⟩

def emptyStore : Store := { nodes := [], edges := [], nextId := 0 }

/-- Whether an effect run succeeded. -/
def emOk (r : Except String (Unit × Store × List RunRec)) : Bool :=
  match r with
  | .ok _ => true
  | .error _ => false

/-- The store of a successful effect run. -/
def emStore (r : Except String (Unit × Store × List RunRec)) : Store :=
  match r with
  | .ok (_, s, _) => s
  | .error _ => emptyStore

/-- The run log of a successful effect run. -/
def emLog (r : Except String (Unit × Store × List RunRec)) : List RunRec :=
  match r with
  | .ok (_, _, l) => l
  | .error _ => []

/-- An effect only ever appends run records that were asserted and whose
asserted count was 1. -/
def LogsGood (m : EM α) : Prop :=
  ∀ s l r, m s l = .ok r →
    ∃ recs, r.2.2 = l ++ recs ∧ ∀ x ∈ recs, x.asserted = true ∧ x.rows = 1

theorem logsGood_pure (a : α) : LogsGood (pure a : EM α) := by
  intro s l r h
  refine ⟨[], ?_, by simp⟩
  rw [EM.pure_def] at h
  unfold EM.pureImpl at h
  cases h
  simp

theorem logsGood_runAssert1 (q : Store → Store × Nat) : LogsGood (EM.runAssert1 q) := by
  intro s l r h
  unfold EM.runAssert1 at h
  rcases hq : q s with ⟨s', c⟩
  rw [hq] at h
  dsimp only at h
  by_cases hc : c = 1
  · rw [if_pos hc] at h
    cases h
    exact ⟨[{ rows := c, asserted := true }], rfl, by simp [hc]⟩
  · rw [if_neg hc] at h
    cases h

theorem logsGood_throw (msg : String) : LogsGood (EM.throwErr msg : EM α) := by
  intro s l r h
  cases h

theorem logsGood_bind {m : EM α} {f : α → EM β} (hm : LogsGood m)
    (hf : ∀ a, LogsGood (f a)) : LogsGood (m >>= f) := by
  intro s l r h
  rw [EM.bind_def] at h
  unfold EM.bindImpl at h
  rcases hx : m s l with e | ⟨a, s1, l1⟩
  · rw [hx] at h
    cases h
  · rw [hx] at h
    obtain ⟨recs1, he1, hg1⟩ := hm s l (a, s1, l1) hx
    obtain ⟨recs2, he2, hg2⟩ := hf a s1 l1 r h
    simp only at he1
    refine ⟨recs1 ++ recs2, ?_, ?_⟩
    · rw [he2, he1, List.append_assoc]
    · intro x hx2
      rcases List.mem_append.mp hx2 with h1 | h2
      · exact hg1 x h1
      · exact hg2 x h2

theorem insert_Transaction_run (tx : RawTx) (s : Store) (l : List RunRec) :
    insert_Transaction tx s l =
      .ok ((), (qCreateTx tx s).1, l ++ [{ rows := 1, asserted := false }]) := rfl

theorem logsGood_insert_TokenTransfer (tf : EthTokenTransfer) :
    LogsGood (insert_TokenTransfer tf) := by
  show LogsGood (EM.runAssert1 _ >>= fun _ => EM.runAssert1 _ >>= fun _ => EM.runAssert1 _)
  exact logsGood_bind (logsGood_runAssert1 _) (fun _ =>
    logsGood_bind (logsGood_runAssert1 _) (fun _ => logsGood_runAssert1 _))

theorem logsGood_uncleRewardLoop (number : Nat) (us : List Uncle) :
    LogsGood (uncleRewardLoop number us) := by
  induction us with
  | nil => exact logsGood_pure ()
  | cons u rest ih =>
    show LogsGood (EM.runAssert1 _ >>= fun _ => uncleRewardLoop number rest)
    exact logsGood_bind (logsGood_runAssert1 _) (fun _ => ih)

theorem logsGood_parse_block_header (b : EnhancedBlock) :
    LogsGood (parse_block_header b) := by
  show LogsGood (EM.runAssert1 _ >>= fun _ => EM.runAssert1 _ >>= fun _ =>
    uncleRewardLoop b.raw.number b.uncle_blocks)
  exact logsGood_bind (logsGood_runAssert1 _) (fun _ =>
    logsGood_bind (logsGood_runAssert1 _) (fun _ => logsGood_uncleRewardLoop _ _))

theorem logsGood_transferLoop (ts : List EthTokenTransfer) :
    LogsGood (transferLoop ts) := by
  induction ts with
  | nil => exact logsGood_pure ()
  | cons t rest ih =>
    show LogsGood (insert_TokenTransfer t >>= fun _ => transferLoop rest)
    exact logsGood_bind (logsGood_insert_TokenTransfer t) (fun _ => ih)

theorem logsGood_parse_block_tx_edges (b : EnhancedBlock) (tx : RawTx) :
    LogsGood (parse_block_tx_edges b tx) := by
  unfold parse_block_tx_edges
  cases tx.toAddr with
  | some toA => exact logsGood_runAssert1 _
  | none =>
    cases b.created_contracts.lookup (get_hash tx) with
    | none => exact logsGood_throw _
    | some x => exact logsGood_runAssert1 _

theorem parse_block_tx_log (b : EnhancedBlock) (tx : RawTx) (s : Store)
    (l : List RunRec) (r : Unit × Store × List RunRec)
    (h : parse_block_tx b tx s l = .ok r) :
    ∃ recs, r.2.2 = l ++ ({ rows := 1, asserted := false } :: recs) ∧
      ∀ x ∈ recs, x.asserted = true ∧ x.rows = 1 := by
  have hrest : LogsGood (parse_block_tx_edges b tx >>=
      fun _ => transferLoop (lookupD b.transfers (get_hash tx) []) >>=
      fun _ => EM.runAssert1 (qContains b.raw.number (get_hash tx))) :=
    logsGood_bind (logsGood_parse_block_tx_edges b tx) (fun _ =>
      logsGood_bind (logsGood_transferLoop _) (fun _ => logsGood_runAssert1 _))
  have h2 : (EM.bindImpl (insert_Transaction tx) (fun _ =>
      parse_block_tx_edges b tx >>=
        fun _ => transferLoop (lookupD b.transfers (get_hash tx) []) >>=
        fun _ => EM.runAssert1 (qContains b.raw.number (get_hash tx)))) s l = .ok r := h
  unfold EM.bindImpl at h2
  rw [insert_Transaction_run] at h2
  obtain ⟨recs, he, hg⟩ := hrest (qCreateTx tx s).1
    (l ++ [{ rows := 1, asserted := false }]) r h2
  exact ⟨recs, by rw [he, List.append_assoc]; rfl, hg⟩

/-- C6 (amended): every GraphWriter write runs inside the single writer
transaction it is handed, and every count-returning write (block header,
reward edges, transaction edges, token-transfer node and edges, contains
edge) asserts exactly one returned count, any other count failing the run;
the Transaction-node creation alone returns no count and performs no
assertion (its single run record is unasserted). -/
theorem c6_writer_asserts_except_transaction :
    (∀ tx : RawTx, ∀ s l, insert_Transaction tx s l =
      .ok ((), (qCreateTx tx s).1, l ++ [{ rows := 1, asserted := false }])) ∧
    (∀ b : EnhancedBlock, ∀ s r, parse_block_header b s [] = .ok r →
      ∀ x ∈ r.2.2, x.asserted = true ∧ x.rows = 1) ∧
    (∀ tf : EthTokenTransfer, ∀ s r, insert_TokenTransfer tf s [] = .ok r →
      ∀ x ∈ r.2.2, x.asserted = true ∧ x.rows = 1) ∧
    (∀ n h s r, insert_block_conatins_tx n h s [] = .ok r →
      ∀ x ∈ r.2.2, x.asserted = true ∧ x.rows = 1) ∧
    (∀ b tx s r, parse_block_tx b tx s [] = .ok r →
      ∃ recs, r.2.2 = { rows := 1, asserted := false } :: recs ∧
        ∀ x ∈ recs, x.asserted = true ∧ x.rows = 1) := by
  refine ⟨insert_Transaction_run, ?_, ?_, ?_, ?_⟩
  · intro b s r h
    obtain ⟨recs, he, hg⟩ := logsGood_parse_block_header b s [] r h
    rw [he]
    simpa using hg
  · intro tf s r h
    obtain ⟨recs, he, hg⟩ := logsGood_insert_TokenTransfer tf s [] r h
    rw [he]
    simpa using hg
  · intro n hh s r h
    obtain ⟨recs, he, hg⟩ := logsGood_runAssert1 (qContains n hh) s [] r h
    rw [he]
    simpa using hg
  · intro b tx s r h
    obtain ⟨recs, he, hg⟩ := parse_block_tx_log b tx s [] r h
    exact ⟨recs, by rw [he]; rfl, hg⟩

/-- An effect that never changes the node list (edge-only writes). -/
def NodesPre (m : EM α) : Prop :=
  ∀ s l r, m s l = .ok r → r.2.1.nodes = s.nodes

theorem foldl_preserves_nodes (g : Store → γ → Store)
    (hg : ∀ st x, (g st x).nodes = st.nodes) (l : List γ) :
    ∀ st, (l.foldl g st).nodes = st.nodes := by
  induction l with
  | nil => intro st; rfl
  | cons x rest ih =>
    intro st
    rw [List.foldl_cons, ih (g st x), hg st x]

theorem nodesPre_runAssert1 (q : Store → Store × Nat)
    (hq : ∀ st, ((q st).1).nodes = st.nodes) : NodesPre (EM.runAssert1 q) := by
  intro s l r h
  unfold EM.runAssert1 at h
  rcases hqs : q s with ⟨s', c⟩
  rw [hqs] at h
  dsimp only at h
  by_cases hc : c = 1
  · rw [if_pos hc] at h
    cases h
    have := hq s
    rw [hqs] at this
    exact this
  · rw [if_neg hc] at h
    cases h

theorem nodesPre_bind {m : EM α} {f : α → EM β} (hm : NodesPre m)
    (hf : ∀ a, NodesPre (f a)) : NodesPre (m >>= f) := by
  intro s l r h
  rw [EM.bind_def] at h
  unfold EM.bindImpl at h
  rcases hx : m s l with e | ⟨a, s1, l1⟩
  · rw [hx] at h
    cases h
  · rw [hx] at h
    have h1 := hm s l (a, s1, l1) hx
    have h2 := hf a s1 l1 r h
    simp only at h1
    rw [h2, h1]

theorem qTokenEdges_pres (tf : EthTokenTransfer) :
    ∀ st, ((qTokenEdges tf st).1).nodes = st.nodes := by
  intro st
  show (List.foldl (fun (acc : Store) (t : Node × Node × Node) =>
    addEdge (addEdge acc "SEND_TOKEN" t.2.1.id t.1.id []) "TOKEN_TO" t.1.id t.2.2.id [])
    st (triples (matchNodes st ["TokenTransfer"]
      [("transaction_hash", Val.s tf.transaction_hash), ("log_index", Val.i tf.log_index)])
      (matchNodes st ["Address"] [("address", Val.s tf.from_address)])
      (matchNodes st ["Address"] [("address", Val.s tf.to_address)]))).nodes = st.nodes
  apply foldl_preserves_nodes
  intro st' x
  rfl

theorem qCallTokenTransfer_pres (tf : EthTokenTransfer) :
    ∀ st, ((qCallTokenTransfer tf st).1).nodes = st.nodes := by
  intro st
  show (List.foldl (fun (acc : Store) (ft : Node × Node) =>
    addEdge acc "CALL_TOKEN_TRANSFER" ft.2.id ft.1.id [])
    st (pairs (matchNodes st ["TokenTransfer"]
      [("transaction_hash", Val.s tf.transaction_hash), ("log_index", Val.i tf.log_index)])
      (matchNodes st ["Transaction"] [("hash", Val.s tf.transaction_hash)]))).nodes = st.nodes
  apply foldl_preserves_nodes
  intro st' x
  rfl

/-- C9 (amended): a successful `insert_TokenTransfer` creates a TokenTransfer
node carrying exactly transaction hash, log index, token contract address,
decoded value (as a decimal string) and the raw value word; the decoded
transfer's block number is not among the persisted properties. -/
theorem c9_token_transfer_node_fields (tf : EthTokenTransfer) (s : Store)
    (h : emOk (insert_TokenTransfer tf s []) = true) :
    ∃ n ∈ (emStore (insert_TokenTransfer tf s [])).nodes,
      n.labels = ["TokenTransfer"] ∧
      n.props = [("transaction_hash", Val.s tf.transaction_hash),
        ("log_index", Val.i tf.log_index),
        ("token_address", Val.s tf.token_address),
        ("value", Val.s (toString tf.value)),
        ("value_raw", Val.hx tf.value_raw)] ∧
      getProp n.props "block_number" = none := by
  rcases hrun : insert_TokenTransfer tf s [] with e | ⟨u, st, lg⟩
  · rw [hrun] at h
    simp [emOk] at h
  · have h2 : (EM.bindImpl (EM.runAssert1 (qCreateTokenTransfer tf)) (fun _ =>
        EM.runAssert1 (qTokenEdges tf) >>= fun _ =>
          EM.runAssert1 (qCallTokenTransfer tf))) s [] = .ok (u, st, lg) := hrun
    unfold EM.bindImpl at h2
    rw [show EM.runAssert1 (qCreateTokenTransfer tf) s [] =
      .ok ((), addNode s ["TokenTransfer"]
        [("transaction_hash", Val.s tf.transaction_hash),
          ("log_index", Val.i tf.log_index),
          ("token_address", Val.s tf.token_address),
          ("value", Val.s (toString tf.value)),
          ("value_raw", Val.hx tf.value_raw)],
        [{ rows := 1, asserted := true }]) from rfl] at h2
    have hpres : NodesPre (EM.runAssert1 (qTokenEdges tf) >>= fun _ =>
        EM.runAssert1 (qCallTokenTransfer tf)) :=
      nodesPre_bind (nodesPre_runAssert1 _ (qTokenEdges_pres tf))
        (fun _ => nodesPre_runAssert1 _ (qCallTokenTransfer_pres tf))
    have hn := hpres _ _ _ h2
    simp only at hn
    refine ⟨Node.mk s.nextId ["TokenTransfer"]
      [("transaction_hash", Val.s tf.transaction_hash),
        ("log_index", Val.i tf.log_index),
        ("token_address", Val.s tf.token_address),
        ("value", Val.s (toString tf.value)),
        ("value_raw", Val.hx tf.value_raw)], ?_, rfl, rfl, rfl⟩
    show _ ∈ st.nodes
    rw [hn]
    simp [addNode]

/-- A decoded transfer (block number 7) together with a store already holding
its transaction and both addresses. -/
def tf0 : EthTokenTransfer := {
  token_address := "0xk9"
  from_address := "0xa9"
  to_address := "0xb9"
  value := 5
  transaction_hash := "0xt9"
  log_index := 0
  block_number := 7
  value_raw := HexData.str "0x05" }

def c9Store : Store := {
  nodes := [Node.mk 0 ["Transaction"] [("hash", Val.s "0xt9")],
    Node.mk 1 ["Address", "EOA"] [("address", Val.s "0xa9")],
    Node.mk 2 ["Address", "EOA"] [("address", Val.s "0xb9")]]
  edges := []
  nextId := 3 }

/-- C9 (counterexample): the decoded transfer carries block number 7, yet the
persisted TokenTransfer node has no `block_number` property — the claim's
sixth field is not among the five the `CREATE` writes. -/
theorem c9_block_number_not_persisted :
    tf0.block_number = 7 ∧
    (matchNodes (emStore (insert_TokenTransfer tf0 c9Store [])) ["TokenTransfer"] []).map
      (fun n => getProp n.props "block_number") = [none] := by
  constructor
  · rfl
  · decide

theorem c9_token_transfer_node_fields_witness :
    ∃ n ∈ (emStore (insert_TokenTransfer tf0 c9Store [])).nodes,
      n.labels = ["TokenTransfer"] ∧
      n.props = [("transaction_hash", Val.s tf0.transaction_hash),
        ("log_index", Val.i tf0.log_index),
        ("token_address", Val.s tf0.token_address),
        ("value", Val.s (toString tf0.value)),
        ("value_raw", Val.hx tf0.value_raw)] ∧
      getProp n.props "block_number" = none :=
  c9_token_transfer_node_fields tf0 c9Store (by decide)

def tx6 : RawTx := {
  hash := HexData.str "0xt6"
  fromAddr := "0xa6"
  toAddr := some "0xb6"
  value := 1
  input := "0x"
  nonce := 0
  r := HexData.str "0xr6"
  s := HexData.str "0xs6"
  v := 27
  transactionIndex := 0
  gas := 21000
  gasPrice := 2 }

/-- C6 (counterexample): the Transaction-node creation — a GraphWriter write —
executes with no returned count and no assertion: its single run record is
unasserted, refuting "every graph write ... asserts that exactly one
row/count confirming its effect is returned". -/
theorem c6_transaction_write_unasserted :
    emLog (insert_Transaction tx6 emptyStore []) = [{ rows := 1, asserted := false }] := rfl

def b6 : RawBlock := {
  number := 5
  hash := HexData.str "0xb6"
  timestamp := 1
  size := 1
  nonce := HexData.str "0x00"
  difficulty := 1
  totalDifficulty := 1
  gasLimit := 1
  gasUsed := 0
  miner := "0xm6"
  uncles := []
  transactions := [tx6] }

def rc6 : Receipt := { gasUsed := 0, logs := [], contractAddress := "" }

def eb6 : EnhancedBlock := {
  raw := b6
  uncle_blocks := []
  created_contracts := []
  transfers := [("0xt6", [])]
  transaction_receipt := [("0xt6", rc6)]
  reward := 0 }

def s6 : Store := {
  nodes := [Node.mk 0 ["Address", "EOA"] [("address", Val.s "0xm6")],
    Node.mk 1 ["Address", "EOA"] [("address", Val.s "0xa6")],
    Node.mk 2 ["Address", "EOA"] [("address", Val.s "0xb6")]]
  edges := []
  nextId := 3 }

theorem c6_writer_asserts_witness :
    (∀ x ∈ emLog (parse_block_header eb6 s6 []), x.asserted = true ∧ x.rows = 1) ∧
    (∀ x ∈ emLog (insert_TokenTransfer tf0 c9Store []), x.asserted = true ∧ x.rows = 1) ∧
    (∃ recs, emLog (parse_block_tx eb6 tx6 (emStore (parse_block_header eb6 s6 [])) []) =
      { rows := 1, asserted := false } :: recs ∧
      ∀ x ∈ recs, x.asserted = true ∧ x.rows = 1) :=
  ⟨c6_writer_asserts_except_transaction.2.1 eb6 s6
      ((), emStore (parse_block_header eb6 s6 []), emLog (parse_block_header eb6 s6 []))
      (by rfl),
    c6_writer_asserts_except_transaction.2.2.1 tf0 c9Store
      ((), emStore (insert_TokenTransfer tf0 c9Store []),
        emLog (insert_TokenTransfer tf0 c9Store [])) (by rfl),
    c6_writer_asserts_except_transaction.2.2.2.2 eb6 tx6
      (emStore (parse_block_header eb6 s6 []))
      ((), emStore (parse_block_tx eb6 tx6 (emStore (parse_block_header eb6 s6 [])) []),
        emLog (parse_block_tx eb6 tx6 (emStore (parse_block_header eb6 s6 [])) []))
      (by rfl)⟩

theorem checkPresentLoop_skip (b : EnhancedBlock) (txs : List RawTx) (s : Store)
    (l : List RunRec)
    (h : ∀ tx ∈ txs, (get_local_Transaction s (get_hash tx)).isSome = true) :
    checkPresentLoop b txs s l = .ok ((), s, l) := by
  induction txs with
  | nil => rfl
  | cons tx rest ih =>
    obtain ⟨nd, hnd⟩ := Option.isSome_iff_exists.mp (h tx (by simp))
    have e1 : checkPresentLoop b (tx :: rest) s l =
        EM.bindImpl (checkPresentStep b tx s) (fun _ => checkPresentLoop b rest) s l := rfl
    rw [e1]
    unfold checkPresentStep
    rw [hnd]
    exact ih (fun tx' h' => h tx' (by simp [h']))

/-- Helper for the block-exists checker branch: when every transaction of
the block already exists, the branch performs no write at all — transfers
missing for already-existing transactions are never inspected or repaired
here (the transfer-repair loop exists only in the missing-block branch). -/
theorem c3_present_block_checks_only_txs (ch : Chain) (n : Nat) (s : Store)
    (h1 : (get_local_Block
      (ensure_block_Addresses ch (enhance_block ch (ch.blockAt n)) s) n).isSome = true)
    (h2 : ∀ tx ∈ (ch.blockAt n).transactions,
      (get_local_Transaction (ensure_block_Addresses ch (enhance_block ch (ch.blockAt n)) s)
        (get_hash tx)).isSome = true) :
    check_task ch n s [] =
      .ok ((), ensure_block_Addresses ch (enhance_block ch (ch.blockAt n)) s, []) := by
  obtain ⟨nd, hnd⟩ := Option.isSome_iff_exists.mp h1
  have e1 : check_task ch n s [] =
      (match get_local_Block
          (ensure_block_Addresses ch (enhance_block ch (ch.blockAt n)) s) n with
        | some _ => checkPresentLoop (enhance_block ch (ch.blockAt n))
            (enhance_block ch (ch.blockAt n)).raw.transactions
        | none => parse_block_header (enhance_block ch (ch.blockAt n)) >>= fun _ =>
            checkMissingLoop (enhance_block ch (ch.blockAt n))
              (enhance_block ch (ch.blockAt n)).raw.transactions none)
        (ensure_block_Addresses ch (enhance_block ch (ch.blockAt n)) s) [] := rfl
  rw [e1, hnd]
  exact checkPresentLoop_skip _ _ _ _ h2

/-- A receipt log of `0xt3` that decodes to a token transfer. -/
def log3 : Log := {
  topics := some [HexData.str TRANSFER_EVENT_TOPIC,
    HexData.str "0x000000000000000000000000aaaaaaaaaaaaaaaaaaaaaaaaaaaaaaaaaaaaaaaa",
    HexData.str "0x000000000000000000000000bbbbbbbbbbbbbbbbbbbbbbbbbbbbbbbbbbbbbbbb"]
  data := "0x0000000000000000000000000000000000000000000000000000000000000005"
  address := "0xk3"
  transactionHash := HexData.str "0xt3"
  logIndex := 0
  blockNumber := 7 }

def t3 : RawTx := {
  hash := HexData.str "0xt3"
  fromAddr := "0xa3"
  toAddr := some "0xb3"
  value := 1
  input := "0x"
  nonce := 0
  r := HexData.str "0xr3"
  s := HexData.str "0xs3"
  v := 27
  transactionIndex := 0
  gas := 21000
  gasPrice := 1 }

def b3 : RawBlock := {
  number := 7
  hash := HexData.str "0xb3"
  timestamp := 1
  size := 1
  nonce := HexData.str "0x00"
  difficulty := 1
  totalDifficulty := 1
  gasLimit := 1
  gasUsed := 0
  miner := "0xm3"
  uncles := []
  transactions := [t3] }

def ch3 : Chain := {
  blockAt := fun _ => b3
  uncleAt := fun _ _ => { miner := "0xz3", number := 0 }
  receiptOf := fun _ => { gasUsed := 3, logs := [log3], contractAddress := "" }
  codeOf := fun _ => "0x60"
  isERC20 := fun _ => false
  isERC721 := fun _ => false }

/-- Block 7 and transaction `0xt3` are persisted, but the transfer decoded
from the receipt's log is not — the partial state the checker claim is
about. -/
def s3 : Store := {
  nodes := [Node.mk 0 ["Block"] [("number", Val.i 7)],
    Node.mk 1 ["Transaction"] [("hash", Val.s "0xt3")]]
  edges := []
  nextId := 2 }

/-- C3 (counterexample): block 7 exists, its transaction exists, and the
chain decodes one transfer for that transaction, yet a checker pass leaves
the store with no TokenTransfer node at all — the block-exists branch never
inspects transfers of existing transactions. -/
theorem c3_missing_transfer_not_repaired :
    (lookupD (enhance_block ch3 (ch3.blockAt 7)).transfers "0xt3" []).length = 1 ∧
    emOk (check_task ch3 7 s3 []) = true ∧
    matchNodes (emStore (check_task ch3 7 s3 [])) ["TokenTransfer"] [] = [] := by
  refine ⟨?_, ?_, ?_⟩
  · decide
  · decide
  · decide

theorem c3_present_block_checks_only_txs_witness :
    check_task ch3 7 s3 [] =
      .ok ((), ensure_block_Addresses ch3 (enhance_block ch3 (ch3.blockAt 7)) s3, []) :=
  c3_present_block_checks_only_txs ch3 7 s3 (by decide) (by decide)

def t5 : RawTx := {
  hash := HexData.str "0xt5"
  fromAddr := "0xa5"
  toAddr := some "0xb5"
  value := 2
  input := "0x"
  nonce := 0
  r := HexData.str "0xr5"
  s := HexData.str "0xs5"
  v := 27
  transactionIndex := 0
  gas := 21000
  gasPrice := 1 }

def b5 : RawBlock := {
  number := 7
  hash := HexData.str "0xb5"
  timestamp := 1
  size := 1
  nonce := HexData.str "0x00"
  difficulty := 1
  totalDifficulty := 1
  gasLimit := 1
  gasUsed := 0
  miner := "0xm5"
  uncles := []
  transactions := [t5] }

def ch5 : Chain := {
  blockAt := fun _ => b5
  uncleAt := fun _ _ => { miner := "0xz5", number := 0 }
  receiptOf := fun _ => { gasUsed := 0, logs := [], contractAddress := "" }
  codeOf := fun _ => "0x60"
  isERC20 := fun _ => false
  isERC721 := fun _ => false }

/-- Block 7 exists (node id 0) but its transaction `0xt5` is missing. -/
def s5 : Store := {
  nodes := [Node.mk 0 ["Block"] [("number", Val.i 7)]]
  edges := []
  nextId := 1 }

/-- C5: a checker pass repairing the missing transaction of an
already-existing block ends with two CONTAINS edges from the Block node
(id 0) to the single repaired Transaction node: `parse_block_tx` writes one
and the subsequent `insert_block_conatins_tx` writes another. -/
theorem c5_checker_repair_double_contains :
    emOk (check_task ch5 7 s5 []) = true ∧
    (matchNodes (emStore (check_task ch5 7 s5 [])) ["Transaction"]
      [("hash", Val.s "0xt5")]).length = 1 ∧
    ((emStore (check_task ch5 7 s5 [])).edges.filter
      (fun e => e.typ == "CONTAINS" && e.src == 0)).length = 2 := by
  refine ⟨?_, ?_, ?_⟩
  · decide
  · decide
  · decide

def t10 : RawTx := {
  hash := HexData.str "0xta"
  fromAddr := "0xaa"
  toAddr := some "0xba"
  value := 1
  input := "0x"
  nonce := 0
  r := HexData.str "0xra"
  s := HexData.str "0xsa"
  v := 27
  transactionIndex := 0
  gas := 21000
  gasPrice := 1 }

def b10 : RawBlock := {
  number := 9
  hash := HexData.str "0xba9"
  timestamp := 1
  size := 1
  nonce := HexData.str "0x00"
  difficulty := 1
  totalDifficulty := 1
  gasLimit := 1
  gasUsed := 0
  miner := "0xma"
  uncles := []
  transactions := [t10] }

def ch10 : Chain := {
  blockAt := fun _ => b10
  uncleAt := fun _ _ => { miner := "0xza", number := 0 }
  receiptOf := fun _ => { gasUsed := 0, logs := [], contractAddress := "" }
  codeOf := fun _ => "0x60"
  isERC20 := fun _ => false
  isERC721 := fun _ => false }

/-- The partially-persisted state left by a crashed run: transaction `0xta`
(with all of its — zero — transfers) exists, but Block 9 is absent. -/
def s10 : Store := {
  nodes := [Node.mk 0 ["Transaction"] [("hash", Val.s "0xta")]]
  edges := []
  nextId := 1 }

/-- C10: on a height whose Block node is absent while its transaction (with
all of its transfers) is already present, `check_task` raises: the first loop
iteration neither re-parses the transaction nor inserts any transfer, so the
`no_contains` local is still unbound when `if no_contains:` reads it. -/
theorem c10_check_task_unbound_local :
    check_task ch10 9 s10 [] = .error "UnboundLocalError: no_contains" := by rfl

def t1 : RawTx := {
  hash := HexData.bytes "0xt1"
  fromAddr := "0xa1"
  toAddr := none
  value := 0
  input := "0x"
  nonce := 0
  r := HexData.bytes "0xr1"
  s := HexData.bytes "0xs1"
  v := 27
  transactionIndex := 0
  gas := 53000
  gasPrice := 3 }

def b1 : RawBlock := {
  number := 100
  hash := HexData.bytes "0xb1"
  timestamp := 10
  size := 2
  nonce := HexData.bytes "0x01"
  difficulty := 2
  totalDifficulty := 3
  gasLimit := 8000000
  gasUsed := 21000
  miner := "0xm1"
  uncles := []
  transactions := [t1] }

def ch1 : Chain := {
  blockAt := fun _ => b1
  uncleAt := fun _ _ => { miner := "0xz1", number := 0 }
  receiptOf := fun _ => { gasUsed := 21000, logs := [], contractAddress := "0xcc01" }
  codeOf := fun _ => "0x6060"
  isERC20 := fun _ => false
  isERC721 := fun _ => false }

def edgesOfType (s : Store) (ty : String) : List Edge :=
  s.edges.filter (fun e => e.typ == ty)

/-- Whether the edge's target node carries the given `address` property. -/
def edgeTargetsAddress (s : Store) (e : Edge) (a : String) : Bool :=
  s.nodes.any (fun n => n.id == e.tgt && getProp n.props "address" == some (Val.s a))

/-- C1: persisting block 100 — one contract-creation transaction whose
recorded created-contract address is `0xcc01` — succeeds and writes one SEND
edge and exactly one CALL_CONTRACT_CREATION edge, but that edge ends at a
fresh anonymous node: the Address:Contract node for `0xcc01` (created by the
address-ensure phase) has zero incoming CALL_CONTRACT_CREATION edges, because
the Cypher `CREATE` uses the unbound variable `new_contract` and never uses
the `new_contract_address` parameter. -/
theorem c1_contract_creation_edge_misses_address_node :
    emOk (sync_task ch1 100 emptyStore []) = true ∧
    (lookupD (enhance_block ch1 b1).created_contracts "0xt1" "") = "0xcc01" ∧
    (edgesOfType (emStore (sync_task ch1 100 emptyStore [])) "SEND").length = 1 ∧
    (edgesOfType (emStore (sync_task ch1 100 emptyStore []))
      "CALL_CONTRACT_CREATION").length = 1 ∧
    (matchNodes (emStore (sync_task ch1 100 emptyStore [])) ["Address", "Contract"]
      [("address", Val.s "0xcc01")]).length = 1 ∧
    ((edgesOfType (emStore (sync_task ch1 100 emptyStore [])) "CALL_CONTRACT_CREATION").filter
      (fun e => edgeTargetsAddress (emStore (sync_task ch1 100 emptyStore [])) e
        "0xcc01")).length = 0 := by
  refine ⟨?_, ?_, ?_, ?_, ?_, ?_⟩
  · decide
  · decide
  · decide
  · decide
  · decide
  · decide

theorem runAssert1_ok (q : Store → Store × Nat) (s : Store) (l : List RunRec)
    (r : Unit × Store × List RunRec) (h : EM.runAssert1 q s l = .ok r) :
    r = ((), (q s).1, l ++ [{ rows := 1, asserted := true }]) ∧ (q s).2 = 1 := by
  unfold EM.runAssert1 at h
  rcases hq : q s with ⟨s', c⟩
  rw [hq] at h
  dsimp only at h
  by_cases hc : c = 1
  · subst hc
    rw [if_pos rfl] at h
    cases h
    exact ⟨rfl, rfl⟩
  · rw [if_neg hc] at h
    cases h

theorem foldl_grow_nodes (g : Store → γ → Store)
    (hg : ∀ st x, ∀ n ∈ st.nodes, n ∈ (g st x).nodes) :
    ∀ (l : List γ) (st : Store), ∀ n ∈ st.nodes, n ∈ (l.foldl g st).nodes := by
  intro l
  induction l with
  | nil => intro st n hn; exact hn
  | cons x rest ih =>
    intro st n hn
    exact ih (g st x) n (hg st x n hn)

theorem foldl_grow_edges (g : Store → γ → Store)
    (hg : ∀ st x, ∀ e ∈ st.edges, e ∈ (g st x).edges) :
    ∀ (l : List γ) (st : Store), ∀ e ∈ st.edges, e ∈ (l.foldl g st).edges := by
  intro l
  induction l with
  | nil => intro st e he; exact he
  | cons x rest ih =>
    intro st e he
    exact ih (g st x) e (hg st x e he)

theorem mem_nodes_addNode {st : Store} {n : Node} (lbls : List String)
    (ps : List (String × Val)) (h : n ∈ st.nodes) : n ∈ (addNode st lbls ps).nodes := by
  unfold addNode
  simp only [List.mem_append]
  exact Or.inl h

theorem mem_edges_addEdge {st : Store} {e : Edge} (ty : String) (a b : Nat)
    (ps : List (String × Val)) (h : e ∈ st.edges) : e ∈ (addEdge st ty a b ps).edges := by
  unfold addEdge
  simp only [List.mem_append]
  exact Or.inl h

/-- An effect whose successful runs only ever extend the node and edge
lists: every previously present node and edge is still present. -/
def GrowsNE (m : EM α) : Prop :=
  ∀ s l r, m s l = .ok r →
    (∀ n ∈ s.nodes, n ∈ r.2.1.nodes) ∧ (∀ e ∈ s.edges, e ∈ r.2.1.edges)

theorem growsNE_pure (a : α) : GrowsNE (pure a : EM α) := by
  intro s l r h
  cases h
  exact ⟨fun n hn => hn, fun e he => he⟩

theorem growsNE_throw (msg : String) : GrowsNE (EM.throwErr msg : EM α) := by
  intro s l r h
  cases h

theorem growsNE_bind {m : EM α} {f : α → EM β} (hm : GrowsNE m)
    (hf : ∀ a, GrowsNE (f a)) : GrowsNE (m >>= f) := by
  intro s l r h
  rw [EM.bind_def] at h
  unfold EM.bindImpl at h
  rcases hx : m s l with e | ⟨a, s1, l1⟩
  · rw [hx] at h
    cases h
  · rw [hx] at h
    obtain ⟨hn1, he1⟩ := hm s l (a, s1, l1) hx
    obtain ⟨hn2, he2⟩ := hf a s1 l1 r h
    simp only at hn1 he1
    exact ⟨fun n hn => hn2 n (hn1 n hn), fun e he => he2 e (he1 e he)⟩

theorem growsNE_runAssert1 (q : Store → Store × Nat)
    (hn : ∀ st, ∀ n ∈ st.nodes, n ∈ ((q st).1).nodes)
    (he : ∀ st, ∀ e ∈ st.edges, e ∈ ((q st).1).edges) :
    GrowsNE (EM.runAssert1 q) := by
  intro s l r h
  obtain ⟨hr, _⟩ := runAssert1_ok q s l r h
  rw [hr]
  exact ⟨hn s, he s⟩

theorem growsNE_runNoCheck (q : Store → Store × Nat)
    (hn : ∀ st, ∀ n ∈ st.nodes, n ∈ ((q st).1).nodes)
    (he : ∀ st, ∀ e ∈ st.edges, e ∈ ((q st).1).edges) :
    GrowsNE (EM.runNoCheck q) := by
  intro s l r h
  unfold EM.runNoCheck at h
  rcases hq : q s with ⟨s', c⟩
  rw [hq] at h
  dsimp only at h
  cases h
  constructor
  · have := hn s
    rw [hq] at this
    exact this
  · have := he s
    rw [hq] at this
    exact this

theorem qSendTo_pres (hash fromA toA : String) :
    ∀ st, ((qSendTo hash fromA toA st).1).nodes = st.nodes := by
  intro st
  show (List.foldl (fun (acc : Store) (t : Node × Node × Node) =>
    addEdge (addEdge acc "SEND" t.2.1.id t.1.id []) "TO" t.1.id t.2.2.id [])
    st (triples (matchNodes st ["Transaction"] [("hash", Val.s hash)])
      (matchNodes st ["Address"] [("address", Val.s fromA)])
      (matchNodes st ["Address"] [("address", Val.s toA)]))).nodes = st.nodes
  apply foldl_preserves_nodes
  intro st' x
  rfl

theorem qSendTo_edges (hash fromA toA : String) :
    ∀ st, ∀ e ∈ st.edges, e ∈ ((qSendTo hash fromA toA st).1).edges := by
  intro st
  show ∀ e ∈ st.edges, e ∈ (List.foldl (fun (acc : Store) (t : Node × Node × Node) =>
    addEdge (addEdge acc "SEND" t.2.1.id t.1.id []) "TO" t.1.id t.2.2.id [])
    st (triples (matchNodes st ["Transaction"] [("hash", Val.s hash)])
      (matchNodes st ["Address"] [("address", Val.s fromA)])
      (matchNodes st ["Address"] [("address", Val.s toA)]))).edges
  apply foldl_grow_edges
  intro st' x e he
  exact mem_edges_addEdge _ _ _ _ (mem_edges_addEdge _ _ _ _ he)

theorem qContains_pres (number : Nat) (hash : String) :
    ∀ st, ((qContains number hash st).1).nodes = st.nodes := by
  intro st
  show (List.foldl (fun (acc : Store) (bt : Node × Node) =>
    addEdge acc "CONTAINS" bt.1.id bt.2.id [])
    st (pairs (matchNodes st ["Block"] [("number", Val.i number)])
      (matchNodes st ["Transaction"] [("hash", Val.s hash)]))).nodes = st.nodes
  apply foldl_preserves_nodes
  intro st' x
  rfl

theorem qContains_edges (number : Nat) (hash : String) :
    ∀ st, ∀ e ∈ st.edges, e ∈ ((qContains number hash st).1).edges := by
  intro st
  show ∀ e ∈ st.edges, e ∈ (List.foldl (fun (acc : Store) (bt : Node × Node) =>
    addEdge acc "CONTAINS" bt.1.id bt.2.id [])
    st (pairs (matchNodes st ["Block"] [("number", Val.i number)])
      (matchNodes st ["Transaction"] [("hash", Val.s hash)]))).edges
  apply foldl_grow_edges
  intro st' x e he
  exact mem_edges_addEdge _ _ _ _ he

theorem qSendCcc_nodes_grow (hash fromA : String) :
    ∀ st, ∀ n ∈ st.nodes, n ∈ ((qSendCcc hash fromA st).1).nodes := by
  intro st
  show ∀ n ∈ st.nodes, n ∈ (List.foldl (fun (acc : Store) (tf : Node × Node) =>
    let acc := addEdge acc "SEND" tf.2.id tf.1.id []
    let anonId := acc.nextId
    let acc := addNode acc [] []
    addEdge acc "CALL_CONTRACT_CREATION" tf.1.id anonId [])
    st (pairs (matchNodes st ["Transaction"] [("hash", Val.s hash)])
      (matchNodes st ["Address"] [("address", Val.s fromA)]))).nodes
  apply foldl_grow_nodes
  intro st' x n hn
  exact mem_nodes_addNode _ _ hn

theorem qSendCcc_edges (hash fromA : String) :
    ∀ st, ∀ e ∈ st.edges, e ∈ ((qSendCcc hash fromA st).1).edges := by
  intro st
  show ∀ e ∈ st.edges, e ∈ (List.foldl (fun (acc : Store) (tf : Node × Node) =>
    let acc := addEdge acc "SEND" tf.2.id tf.1.id []
    let anonId := acc.nextId
    let acc := addNode acc [] []
    addEdge acc "CALL_CONTRACT_CREATION" tf.1.id anonId [])
    st (pairs (matchNodes st ["Transaction"] [("hash", Val.s hash)])
      (matchNodes st ["Address"] [("address", Val.s fromA)]))).edges
  apply foldl_grow_edges
  intro st' x e he
  exact mem_edges_addEdge _ _ _ _ (mem_edges_addEdge _ _ _ _ he)

theorem qTokenEdges_edges (tf : EthTokenTransfer) :
    ∀ st, ∀ e ∈ st.edges, e ∈ ((qTokenEdges tf st).1).edges := by
  intro st
  show ∀ e ∈ st.edges, e ∈ (List.foldl (fun (acc : Store) (t : Node × Node × Node) =>
    addEdge (addEdge acc "SEND_TOKEN" t.2.1.id t.1.id []) "TOKEN_TO" t.1.id t.2.2.id [])
    st (triples (matchNodes st ["TokenTransfer"]
      [("transaction_hash", Val.s tf.transaction_hash), ("log_index", Val.i tf.log_index)])
      (matchNodes st ["Address"] [("address", Val.s tf.from_address)])
      (matchNodes st ["Address"] [("address", Val.s tf.to_address)]))).edges
  apply foldl_grow_edges
  intro st' x e he
  exact mem_edges_addEdge _ _ _ _ (mem_edges_addEdge _ _ _ _ he)

theorem qCallTokenTransfer_edges (tf : EthTokenTransfer) :
    ∀ st, ∀ e ∈ st.edges, e ∈ ((qCallTokenTransfer tf st).1).edges := by
  intro st
  show ∀ e ∈ st.edges, e ∈ (List.foldl (fun (acc : Store) (ft : Node × Node) =>
    addEdge acc "CALL_TOKEN_TRANSFER" ft.2.id ft.1.id [])
    st (pairs (matchNodes st ["TokenTransfer"]
      [("transaction_hash", Val.s tf.transaction_hash), ("log_index", Val.i tf.log_index)])
      (matchNodes st ["Transaction"] [("hash", Val.s tf.transaction_hash)]))).edges
  apply foldl_grow_edges
  intro st' x e he
  exact mem_edges_addEdge _ _ _ _ he

theorem growsNE_insert_Transaction (tx : RawTx) : GrowsNE (insert_Transaction tx) := by
  apply growsNE_runNoCheck
  · intro st n hn
    exact mem_nodes_addNode _ _ hn
  · intro st e he
    exact he

theorem growsNE_parse_block_tx_edges (b : EnhancedBlock) (tx : RawTx) :
    GrowsNE (parse_block_tx_edges b tx) := by
  unfold parse_block_tx_edges
  cases tx.toAddr with
  | some toA =>
    apply growsNE_runAssert1
    · intro st n hn
      rw [qSendTo_pres]
      exact hn
    · exact qSendTo_edges _ _ _
  | none =>
    cases b.created_contracts.lookup (get_hash tx) with
    | none => exact growsNE_throw _
    | some x =>
      apply growsNE_runAssert1
      · exact qSendCcc_nodes_grow _ _
      · exact qSendCcc_edges _ _

theorem growsNE_insert_TokenTransfer (t : EthTokenTransfer) :
    GrowsNE (insert_TokenTransfer t) := by
  show GrowsNE (EM.runAssert1 _ >>= fun _ => EM.runAssert1 _ >>= fun _ => EM.runAssert1 _)
  apply growsNE_bind
  · apply growsNE_runAssert1
    · intro st n hn
      exact mem_nodes_addNode _ _ hn
    · intro st e he
      exact he
  intro _
  apply growsNE_bind
  · apply growsNE_runAssert1
    · intro st n hn
      rw [qTokenEdges_pres]
      exact hn
    · exact qTokenEdges_edges _
  intro _
  apply growsNE_runAssert1
  · intro st n hn
    rw [qCallTokenTransfer_pres]
    exact hn
  · exact qCallTokenTransfer_edges _

theorem growsNE_transferLoop (ts : List EthTokenTransfer) : GrowsNE (transferLoop ts) := by
  induction ts with
  | nil => exact growsNE_pure ()
  | cons t rest ih =>
    show GrowsNE (insert_TokenTransfer t >>= fun _ => transferLoop rest)
    exact growsNE_bind (growsNE_insert_TokenTransfer t) (fun _ => ih)

theorem growsNE_qContainsAssert (number : Nat) (hash : String) :
    GrowsNE (EM.runAssert1 (qContains number hash)) := by
  apply growsNE_runAssert1
  · intro st n hn
    rw [qContains_pres]
    exact hn
  · exact qContains_edges _ _

theorem growsNE_parse_block_tx (b : EnhancedBlock) (tx : RawTx) :
    GrowsNE (parse_block_tx b tx) := by
  show GrowsNE (insert_Transaction tx >>= fun _ => parse_block_tx_edges b tx >>= fun _ =>
    transferLoop (lookupD b.transfers (get_hash tx) []) >>= fun _ =>
    EM.runAssert1 (qContains b.raw.number (get_hash tx)))
  exact growsNE_bind (growsNE_insert_Transaction tx) (fun _ =>
    growsNE_bind (growsNE_parse_block_tx_edges b tx) (fun _ =>
      growsNE_bind (growsNE_transferLoop _) (fun _ => growsNE_qContainsAssert _ _)))

theorem growsNE_checkPresentStep (b : EnhancedBlock) (tx : RawTx) (sArg : Store) :
    GrowsNE (checkPresentStep b tx sArg) := by
  unfold checkPresentStep
  cases get_local_Transaction sArg (get_hash tx) with
  | some nd => exact growsNE_pure ()
  | none =>
    show GrowsNE (parse_block_tx b tx >>= fun _ =>
      insert_block_conatins_tx b.raw.number (get_hash tx))
    exact growsNE_bind (growsNE_parse_block_tx b tx)
      (fun _ => growsNE_qContainsAssert _ _)

theorem growsNE_checkPresentLoop (b : EnhancedBlock) (txs : List RawTx) :
    GrowsNE (checkPresentLoop b txs) := by
  induction txs with
  | nil => exact growsNE_pure ()
  | cons tx rest ih =>
    intro s l r h
    have h2 : EM.bindImpl (checkPresentStep b tx s) (fun _ => checkPresentLoop b rest) s l =
        .ok r := h
    unfold EM.bindImpl at h2
    rcases hs : checkPresentStep b tx s s l with e | ⟨u1, s2, l2⟩
    · rw [hs] at h2
      cases h2
    · rw [hs] at h2
      obtain ⟨hn1, he1⟩ := growsNE_checkPresentStep b tx s s l (u1, s2, l2) hs
      obtain ⟨hn2, he2⟩ := ih s2 l2 r h2
      simp only at hn1 he1
      exact ⟨fun n hn => hn2 n (hn1 n hn), fun e he => he2 e (he1 e he)⟩

/-- The store holds a Transaction node with the given hash. -/
def hasTxNode (st : Store) (h : String) : Prop :=
  ∃ n ∈ st.nodes, nodeMatch ["Transaction"] [("hash", Val.s h)] n = true

/-- The store holds a TokenTransfer node keyed like the decoded transfer. -/
def hasTransferNode (st : Store) (t : EthTokenTransfer) : Prop :=
  ∃ n ∈ st.nodes, nodeMatch ["TokenTransfer"]
    [("transaction_hash", Val.s t.transaction_hash), ("log_index", Val.i t.log_index)] n = true

/-- The store holds a CONTAINS edge from a Block node with the given number
to a Transaction node with the given hash. -/
def hasContainsEdge (st : Store) (number : Nat) (h : String) : Prop :=
  ∃ e ∈ st.edges, ∃ nb ∈ st.nodes, ∃ nt ∈ st.nodes,
    e.typ = "CONTAINS" ∧ e.src = nb.id ∧ e.tgt = nt.id ∧
    nodeMatch ["Block"] [("number", Val.i number)] nb = true ∧
    nodeMatch ["Transaction"] [("hash", Val.s h)] nt = true

theorem hasTxNode_mono {st st' : Store} {h : String}
    (hn : ∀ n ∈ st.nodes, n ∈ st'.nodes) (hp : hasTxNode st h) : hasTxNode st' h := by
  obtain ⟨n, hmem, hm⟩ := hp
  exact ⟨n, hn n hmem, hm⟩

theorem hasTransferNode_mono {st st' : Store} {t : EthTokenTransfer}
    (hn : ∀ n ∈ st.nodes, n ∈ st'.nodes) (hp : hasTransferNode st t) :
    hasTransferNode st' t := by
  obtain ⟨n, hmem, hm⟩ := hp
  exact ⟨n, hn n hmem, hm⟩

theorem hasContainsEdge_mono {st st' : Store} {number : Nat} {h : String}
    (hn : ∀ n ∈ st.nodes, n ∈ st'.nodes) (he : ∀ e ∈ st.edges, e ∈ st'.edges)
    (hp : hasContainsEdge st number h) : hasContainsEdge st' number h := by
  obtain ⟨e, hme, nb, hmb, nt, hmt, rest⟩ := hp
  exact ⟨e, he e hme, nb, hn nb hmb, nt, hn nt hmt, rest⟩

theorem pairs_mem {xs ys : List Node} {p : Node × Node} (h : p ∈ pairs xs ys) :
    p.1 ∈ xs ∧ p.2 ∈ ys := by
  induction xs with
  | nil => simp [pairs] at h
  | cons x rest ih =>
    rw [show pairs (x :: rest) ys = ys.map (fun y => (x, y)) ++ pairs rest ys from rfl] at h
    rcases List.mem_append.mp h with h1 | h2
    · obtain ⟨y, hy, hxy⟩ := List.mem_map.mp h1
      cases hxy
      exact ⟨by simp, by simpa using hy⟩
    · obtain ⟨ha, hb⟩ := ih h2
      exact ⟨List.mem_cons_of_mem _ ha, hb⟩

theorem get_local_Transaction_some {s : Store} {h : String} {nd : Node}
    (hg : get_local_Transaction s h = some nd) :
    nd ∈ s.nodes ∧ nodeMatch ["Transaction"] [("hash", Val.s h)] nd = true := by
  unfold get_local_Transaction at hg
  rcases hm : matchNodes s ["Transaction"] [("hash", Val.s h)] with _ | ⟨n1, rest⟩
  · rw [hm] at hg
    cases hg
  · rw [hm] at hg
    cases rest with
    | nil =>
      dsimp only at hg
      cases hg
      have hmem : nd ∈ matchNodes s ["Transaction"] [("hash", Val.s h)] := by
        rw [hm]
        simp
      exact ⟨(List.mem_filter.mp hmem).1, (List.mem_filter.mp hmem).2⟩
    | cons n2 rest2 =>
      dsimp only at hg
      cases hg

theorem checkPresentStep_of_some (b : EnhancedBlock) (tx : RawTx) (s : Store)
    (l : List RunRec) (nd : Node)
    (h : get_local_Transaction s (get_hash tx) = some nd) :
    checkPresentStep b tx s s l = .ok ((), s, l) := by
  unfold checkPresentStep
  rw [h]
  rfl

theorem foldl_ccc_nodes (ps : List (Node × Node)) :
    ∀ st : Store, ∃ ns, (List.foldl (fun (acc : Store) (tf : Node × Node) =>
      let acc := addEdge acc "SEND" tf.2.id tf.1.id []
      let anonId := acc.nextId
      let acc := addNode acc [] []
      addEdge acc "CALL_CONTRACT_CREATION" tf.1.id anonId []) st ps).nodes =
        st.nodes ++ ns ∧ ∀ n ∈ ns, n.labels = [] := by
  induction ps with
  | nil =>
    intro st
    exact ⟨[], by simp, by simp⟩
  | cons p rest ih =>
    intro st
    rw [List.foldl_cons]
    obtain ⟨ns, hns, hlab⟩ := ih (addEdge (addNode (addEdge st "SEND" p.2.id p.1.id [])
      [] []) "CALL_CONTRACT_CREATION" p.1.id (addEdge st "SEND" p.2.id p.1.id []).nextId [])
    refine ⟨Node.mk (addEdge st "SEND" p.2.id p.1.id []).nextId [] [] :: ns, ?_, ?_⟩
    · rw [hns]
      simp [addEdge, addNode]
    · intro n hn
      rcases List.mem_cons.mp hn with h1 | h2
      · rw [h1]
      · exact hlab n h2

theorem parse_block_tx_edges_nodes (b : EnhancedBlock) (tx : RawTx) (s : Store)
    (l : List RunRec) (r : Unit × Store × List RunRec)
    (h : parse_block_tx_edges b tx s l = .ok r) :
    ∃ ns, r.2.1.nodes = s.nodes ++ ns ∧ ∀ n ∈ ns, n.labels = [] := by
  unfold parse_block_tx_edges at h
  cases htoa : tx.toAddr with
  | some toA =>
    rw [htoa] at h
    dsimp only at h
    obtain ⟨hr, _⟩ := runAssert1_ok _ _ _ _ h
    rw [hr]
    refine ⟨[], ?_, by simp⟩
    show ((qSendTo tx.hash.hex tx.fromAddr toA s).1).nodes = s.nodes ++ []
    rw [qSendTo_pres]
    simp
  | none =>
    rw [htoa] at h
    dsimp only at h
    cases hcc : b.created_contracts.lookup (get_hash tx) with
    | none =>
      rw [hcc] at h
      cases h
    | some x =>
      rw [hcc] at h
      dsimp only at h
      obtain ⟨hr, _⟩ := runAssert1_ok _ _ _ _ h
      rw [hr]
      show ∃ ns, ((qSendCcc tx.hash.hex tx.fromAddr s).1).nodes = s.nodes ++ ns ∧
        ∀ n ∈ ns, n.labels = []
      exact foldl_ccc_nodes _ s

theorem ttNode_matches (idv : Nat) (t : EthTokenTransfer) :
    nodeMatch ["TokenTransfer"]
      [("transaction_hash", Val.s t.transaction_hash), ("log_index", Val.i t.log_index)]
      (Node.mk idv ["TokenTransfer"]
        [("transaction_hash", Val.s t.transaction_hash),
          ("log_index", Val.i t.log_index),
          ("token_address", Val.s t.token_address),
          ("value", Val.s (toString t.value)),
          ("value_raw", Val.hx t.value_raw)]) = true := by
  simp [nodeMatch, hasLabel, memS, getProp]

theorem insert_TokenTransfer_nodes (t : EthTokenTransfer) (s : Store) (l : List RunRec)
    (r : Unit × Store × List RunRec) (h : insert_TokenTransfer t s l = .ok r) :
    r.2.1.nodes = s.nodes ++ [Node.mk s.nextId ["TokenTransfer"]
      [("transaction_hash", Val.s t.transaction_hash),
        ("log_index", Val.i t.log_index),
        ("token_address", Val.s t.token_address),
        ("value", Val.s (toString t.value)),
        ("value_raw", Val.hx t.value_raw)]] := by
  have h2 : (EM.bindImpl (EM.runAssert1 (qCreateTokenTransfer t)) (fun _ =>
      EM.runAssert1 (qTokenEdges t) >>= fun _ =>
        EM.runAssert1 (qCallTokenTransfer t))) s l = .ok r := h
  unfold EM.bindImpl at h2
  rw [show EM.runAssert1 (qCreateTokenTransfer t) s l =
    .ok ((), addNode s ["TokenTransfer"]
      [("transaction_hash", Val.s t.transaction_hash),
        ("log_index", Val.i t.log_index),
        ("token_address", Val.s t.token_address),
        ("value", Val.s (toString t.value)),
        ("value_raw", Val.hx t.value_raw)],
      l ++ [{ rows := 1, asserted := true }]) from rfl] at h2
  have hpres : NodesPre (EM.runAssert1 (qTokenEdges t) >>= fun _ =>
      EM.runAssert1 (qCallTokenTransfer t)) :=
    nodesPre_bind (nodesPre_runAssert1 _ (qTokenEdges_pres t))
      (fun _ => nodesPre_runAssert1 _ (qCallTokenTransfer_pres t))
  have hn := hpres _ _ _ h2
  rw [hn]
  rfl

theorem transferLoop_spec (ts : List EthTokenTransfer) :
    ∀ s l r, transferLoop ts s l = .ok r →
      ∃ ns, r.2.1.nodes = s.nodes ++ ns ∧ (∀ n ∈ ns, n.labels = ["TokenTransfer"]) ∧
        ∀ t ∈ ts, hasTransferNode r.2.1 t := by
  induction ts with
  | nil =>
    intro s l r h
    cases h
    exact ⟨[], by simp, by simp, by simp⟩
  | cons t rest ih =>
    intro s l r h
    have h2 : EM.bindImpl (insert_TokenTransfer t) (fun _ => transferLoop rest) s l =
        .ok r := h
    unfold EM.bindImpl at h2
    rcases hx : insert_TokenTransfer t s l with e | ⟨u1, s1, l1⟩
    · rw [hx] at h2
      cases h2
    · rw [hx] at h2
      have hn1 := insert_TokenTransfer_nodes t s l (u1, s1, l1) hx
      simp only at hn1
      obtain ⟨ns2, hn2, hlab2, hts2⟩ := ih s1 l1 r h2
      refine ⟨Node.mk s.nextId ["TokenTransfer"]
        [("transaction_hash", Val.s t.transaction_hash),
          ("log_index", Val.i t.log_index),
          ("token_address", Val.s t.token_address),
          ("value", Val.s (toString t.value)),
          ("value_raw", Val.hx t.value_raw)] :: ns2, ?_, ?_, ?_⟩
      · rw [hn2, hn1]
        simp
      · intro n hn
        rcases List.mem_cons.mp hn with hh | hh
        · rw [hh]
        · exact hlab2 n hh
      · intro t' ht'
        rcases List.mem_cons.mp ht' with hh | hh
        · subst hh
          refine ⟨Node.mk s.nextId ["TokenTransfer"] _, ?_, ttNode_matches s.nextId t'⟩
          rw [hn2, hn1]
          simp
        · exact hts2 t' hh

theorem contains_assert_spec (number : Nat) (hash : String) (s : Store) (l : List RunRec)
    (r : Unit × Store × List RunRec)
    (h : EM.runAssert1 (qContains number hash) s l = .ok r) :
    r.2.1.nodes = s.nodes ∧ (∀ e ∈ s.edges, e ∈ r.2.1.edges) ∧
      hasContainsEdge r.2.1 number hash := by
  obtain ⟨hr, hc⟩ := runAssert1_ok _ _ _ _ h
  have hc2 : (pairs (matchNodes s ["Block"] [("number", Val.i number)])
      (matchNodes s ["Transaction"] [("hash", Val.s hash)])).length = 1 := hc
  obtain ⟨p, hp⟩ := List.length_eq_one.mp hc2
  have hq1 : (qContains number hash s).1 =
      addEdge s "CONTAINS" p.1.id p.2.id [] := by
    show (pairs (matchNodes s ["Block"] [("number", Val.i number)])
      (matchNodes s ["Transaction"] [("hash", Val.s hash)])).foldl
        (fun acc bt => addEdge acc "CONTAINS" bt.1.id bt.2.id []) s = _
    rw [hp]
    rfl
  have hpmem : p ∈ pairs (matchNodes s ["Block"] [("number", Val.i number)])
      (matchNodes s ["Transaction"] [("hash", Val.s hash)]) := by
    rw [hp]
    simp
  obtain ⟨hb, ht⟩ := pairs_mem hpmem
  rw [hr, hq1]
  refine ⟨rfl, ?_, ?_⟩
  · intro e he
    exact mem_edges_addEdge _ _ _ _ he
  · refine ⟨Edge.mk "CONTAINS" p.1.id p.2.id [], ?_, p.1, ?_, p.2, ?_,
      rfl, rfl, rfl, (List.mem_filter.mp hb).2, (List.mem_filter.mp ht).2⟩
    · show _ ∈ s.edges ++ [Edge.mk "CONTAINS" p.1.id p.2.id []]
      simp
    · exact (List.mem_filter.mp hb).1
    · exact (List.mem_filter.mp ht).1

theorem txNode_matches (tx : RawTx) (idv : Nat) :
    nodeMatch ["Transaction"] [("hash", Val.s (get_hash tx))]
      (Node.mk idv ["Transaction"]
        [("hash", Val.s tx.hash.hex),
          ("from", Val.s tx.fromAddr),
          ("to", match tx.toAddr with | some a => Val.s a | none => Val.null),
          ("value", Val.s (toString tx.value)),
          ("input", Val.s tx.input),
          ("nonce", Val.i tx.nonce),
          ("r", Val.s tx.r.hex),
          ("s", Val.s tx.s.hex),
          ("v", Val.i tx.v),
          ("transactionIndex", Val.i tx.transactionIndex),
          ("gas", Val.s (toString tx.gas)),
          ("gasPrice", Val.s (toString tx.gasPrice))]) = true := by
  simp [nodeMatch, hasLabel, memS, getProp, get_hash]

theorem checkPresentStep_repair_spec (b : EnhancedBlock) (tx : RawTx) (s : Store)
    (l : List RunRec) (r : Unit × Store × List RunRec)
    (hmiss : get_local_Transaction s (get_hash tx) = none)
    (h : checkPresentStep b tx s s l = .ok r) :
    (∃ ns, r.2.1.nodes = s.nodes ++ ns ∧
      ∀ n ∈ ns, n.labels = [] ∨ (n.labels = ["Transaction"] ∧
        getProp n.props "hash" = some (Val.s (get_hash tx))) ∨
        n.labels = ["TokenTransfer"]) ∧
    (∀ e ∈ s.edges, e ∈ r.2.1.edges) ∧
    hasTxNode r.2.1 (get_hash tx) ∧
    (∀ t ∈ lookupD b.transfers (get_hash tx) [], hasTransferNode r.2.1 t) ∧
    hasContainsEdge r.2.1 b.raw.number (get_hash tx) := by
  unfold checkPresentStep at h
  rw [hmiss] at h
  have h2 : EM.bindImpl (parse_block_tx b tx)
      (fun _ => insert_block_conatins_tx b.raw.number (get_hash tx)) s l = .ok r := h
  unfold EM.bindImpl at h2
  rcases hp : parse_block_tx b tx s l with e | ⟨u1, s1, l1⟩
  · rw [hp] at h2
    cases h2
  rw [hp] at h2
  have hcc : EM.runAssert1 (qContains b.raw.number (get_hash tx)) s1 l1 = .ok r := h2
  have hp2 : EM.bindImpl (insert_Transaction tx) (fun _ =>
      parse_block_tx_edges b tx >>= fun _ =>
        transferLoop (lookupD b.transfers (get_hash tx) []) >>= fun _ =>
          EM.runAssert1 (qContains b.raw.number (get_hash tx))) s l =
      .ok (u1, s1, l1) := hp
  unfold EM.bindImpl at hp2
  rw [insert_Transaction_run] at hp2
  have hp3 : EM.bindImpl (parse_block_tx_edges b tx) (fun _ =>
      transferLoop (lookupD b.transfers (get_hash tx) []) >>= fun _ =>
        EM.runAssert1 (qContains b.raw.number (get_hash tx)))
      (qCreateTx tx s).1 (l ++ [{ rows := 1, asserted := false }]) =
      .ok (u1, s1, l1) := hp2
  unfold EM.bindImpl at hp3
  rcases he : parse_block_tx_edges b tx (qCreateTx tx s).1
      (l ++ [{ rows := 1, asserted := false }]) with e2 | ⟨u2, sB, lB⟩
  · rw [he] at hp3
    cases hp3
  rw [he] at hp3
  have hp4 : EM.bindImpl (transferLoop (lookupD b.transfers (get_hash tx) []))
      (fun _ => EM.runAssert1 (qContains b.raw.number (get_hash tx))) sB lB =
      .ok (u1, s1, l1) := hp3
  unfold EM.bindImpl at hp4
  rcases htl : transferLoop (lookupD b.transfers (get_hash tx) []) sB lB
      with e3 | ⟨u3, sC, lC⟩
  · rw [htl] at hp4
    cases hp4
  rw [htl] at hp4
  have hct : EM.runAssert1 (qContains b.raw.number (get_hash tx)) sC lC =
      .ok (u1, s1, l1) := hp4
  have hA : ((qCreateTx tx s).1).nodes = s.nodes ++ [Node.mk s.nextId ["Transaction"]
    [("hash", Val.s tx.hash.hex),
      ("from", Val.s tx.fromAddr),
      ("to", match tx.toAddr with | some a => Val.s a | none => Val.null),
      ("value", Val.s (toString tx.value)),
      ("input", Val.s tx.input),
      ("nonce", Val.i tx.nonce),
      ("r", Val.s tx.r.hex),
      ("s", Val.s tx.s.hex),
      ("v", Val.i tx.v),
      ("transactionIndex", Val.i tx.transactionIndex),
      ("gas", Val.s (toString tx.gas)),
      ("gasPrice", Val.s (toString tx.gasPrice))]] := rfl
  obtain ⟨nsE, hB, hBlab⟩ := parse_block_tx_edges_nodes b tx _ _ _ he
  obtain ⟨nsT, hC, hClab, hCts⟩ := transferLoop_spec _ sB lB (u3, sC, lC) htl
  obtain ⟨hD1, hD2, hD3⟩ := contains_assert_spec _ _ sC lC (u1, s1, l1) hct
  obtain ⟨hE1, hE2, hE3⟩ := contains_assert_spec _ _ s1 l1 r hcc
  simp only at hB hC hD1 hD2 hD3 hE1 hE2 hE3 hCts
  have hrnodes : r.2.1.nodes = s.nodes ++
      (Node.mk s.nextId ["Transaction"]
        [("hash", Val.s tx.hash.hex),
          ("from", Val.s tx.fromAddr),
          ("to", match tx.toAddr with | some a => Val.s a | none => Val.null),
          ("value", Val.s (toString tx.value)),
          ("input", Val.s tx.input),
          ("nonce", Val.i tx.nonce),
          ("r", Val.s tx.r.hex),
          ("s", Val.s tx.s.hex),
          ("v", Val.i tx.v),
          ("transactionIndex", Val.i tx.transactionIndex),
          ("gas", Val.s (toString tx.gas)),
          ("gasPrice", Val.s (toString tx.gasPrice))] :: (nsE ++ nsT)) := by
    rw [hE1, hD1, hC, hB, hA]
    simp
  refine ⟨⟨_, hrnodes, ?_⟩, ?_, ?_, ?_, hE3⟩
  · intro n hn
    rcases List.mem_cons.mp hn with h1 | h1
    · refine Or.inr (Or.inl ⟨by rw [h1], ?_⟩)
      rw [h1]
      rfl
    · rcases List.mem_append.mp h1 with h2 | h2
      · exact Or.inl (hBlab n h2)
      · exact Or.inr (Or.inr (hClab n h2))
  · intro e hme
    obtain ⟨_, hedge⟩ := growsNE_parse_block_tx b tx s l (u1, s1, l1) hp
    simp only at hedge
    exact hE2 e (hedge e hme)
  · refine ⟨Node.mk s.nextId ["Transaction"] _, ?_, txNode_matches tx s.nextId⟩
    rw [hrnodes]
    simp
  · intro t ht
    have := hCts t ht
    refine hasTransferNode_mono ?_ this
    intro n hn
    rw [hE1, hD1]
    exact hn

theorem matchNodes_eq_nil_extend (s2 s : Store) (ns : List Node) (L : List String)
    (P : List (String × Val)) (hn : s2.nodes = s.nodes ++ ns)
    (h0 : matchNodes s L P = []) (hns : ∀ n ∈ ns, nodeMatch L P n = false) :
    matchNodes s2 L P = [] := by
  unfold matchNodes at h0 ⊢
  rw [hn, List.filter_append, h0, List.nil_append]
  apply List.filter_eq_nil_iff.mpr
  intro n hmem hcon
  rw [hns n hmem] at hcon
  cases hcon

theorem shape_no_match (n : Node) (h0 hx : String) (hne : hx ≠ h0)
    (hshape : n.labels = [] ∨ (n.labels = ["Transaction"] ∧
      getProp n.props "hash" = some (Val.s h0)) ∨ n.labels = ["TokenTransfer"]) :
    nodeMatch ["Transaction"] [("hash", Val.s hx)] n = false := by
  rcases hshape with h1 | ⟨h1, h2⟩ | h1
  · simp [nodeMatch, hasLabel, h1, memS]
  · simp only [nodeMatch, List.all_cons, List.all_nil, hasLabel, h1, h2, memS]
    simp [Ne.symm hne]
  · simp [nodeMatch, hasLabel, h1, memS]

theorem checkPresentLoop_repair (b : EnhancedBlock) (txs : List RawTx) :
    ∀ s l r, checkPresentLoop b txs s l = .ok r →
    ∀ tx ∈ txs,
      hasTxNode r.2.1 (get_hash tx) ∧
      (matchNodes s ["Transaction"] [("hash", Val.s (get_hash tx))] = [] →
        (∀ t ∈ lookupD b.transfers (get_hash tx) [], hasTransferNode r.2.1 t) ∧
        hasContainsEdge r.2.1 b.raw.number (get_hash tx)) := by
  induction txs with
  | nil =>
    intro s l r h tx htx
    simp at htx
  | cons tx0 rest ih =>
    intro s l r h tx htx
    cases hloc : get_local_Transaction s (get_hash tx0) with
    | some nd =>
      have h3 : checkPresentLoop b rest s l = .ok r := by
        have h2 : EM.bindImpl (checkPresentStep b tx0 s)
            (fun _ => checkPresentLoop b rest) s l = .ok r := h
        unfold EM.bindImpl at h2
        rw [checkPresentStep_of_some b tx0 s l nd hloc] at h2
        exact h2
      rcases List.mem_cons.mp htx with rfl | hmem
      · obtain ⟨hnd_mem, hnd_match⟩ := get_local_Transaction_some hloc
        constructor
        · exact hasTxNode_mono (growsNE_checkPresentLoop b rest s l r h3).1
            ⟨nd, hnd_mem, hnd_match⟩
        · intro h0
          exfalso
          unfold get_local_Transaction at hloc
          rw [h0] at hloc
          cases hloc
      · exact ih s l r h3 tx hmem
    | none =>
      have h2 : EM.bindImpl (checkPresentStep b tx0 s)
          (fun _ => checkPresentLoop b rest) s l = .ok r := h
      unfold EM.bindImpl at h2
      rcases hs : checkPresentStep b tx0 s s l with e | ⟨u1, s2, l2⟩
      · rw [hs] at h2
        cases h2
      rw [hs] at h2
      obtain ⟨⟨ns, hns, hshape⟩, hedges, htxnode, htransfers, hcontains⟩ :=
        checkPresentStep_repair_spec b tx0 s l (u1, s2, l2) hloc hs
      obtain ⟨hgn, hge⟩ := growsNE_checkPresentLoop b rest s2 l2 r h2
      rcases List.mem_cons.mp htx with rfl | hmem
      · constructor
        · exact hasTxNode_mono hgn htxnode
        · intro _
          exact ⟨fun t ht => hasTransferNode_mono hgn (htransfers t ht),
            hasContainsEdge_mono hgn hge hcontains⟩
      · have ihres := ih s2 l2 r h2 tx hmem
        refine ⟨ihres.1, ?_⟩
        intro h0
        by_cases hhash : get_hash tx = get_hash tx0
        · rw [hhash]
          exact ⟨fun t ht => hasTransferNode_mono hgn (htransfers t ht),
            hasContainsEdge_mono hgn hge hcontains⟩
        · apply ihres.2
          apply matchNodes_eq_nil_extend s2 s ns _ _ hns h0
          intro n hn
          exact shape_no_match n (get_hash tx0) (get_hash tx) hhash (hshape n hn)

theorem enhance_block_raw (ch : Chain) (b : RawBlock) : (enhance_block ch b).raw = b := rfl

/-- Block 7 present but transaction `0xt3` (and hence its transfer and
contains-edge) absent — a partial state whose repair the checker claim
asserts. -/
def s11 : Store := {
  nodes := [Node.mk 0 ["Block"] [("number", Val.i 7)]]
  edges := []
  nextId := 1 }

/-- C3 (amended): in checker mode, for a height whose Block node already
exists, each of the block's transactions is checked by hash: (1) when every
transaction already exists the branch performs no write at all — transfers
missing for already-existing transactions are never inspected or repaired in
this branch (the transfer-repair loop exists only in the missing-block
branch); and (2) on any successful run every missing transaction (one with
no Transaction node carrying its hash after the address-ensuring phase) is
persisted together with all of its decoded transfers and a CONTAINS edge
from the Block node to it. -/
theorem c3_present_branch_spec (ch : Chain) (n : Nat) (s : Store)
    (h1 : (get_local_Block
      (ensure_block_Addresses ch (enhance_block ch (ch.blockAt n)) s) n).isSome = true) :
    ((∀ tx ∈ (ch.blockAt n).transactions,
        (get_local_Transaction
          (ensure_block_Addresses ch (enhance_block ch (ch.blockAt n)) s)
          (get_hash tx)).isSome = true) →
      check_task ch n s [] =
        .ok ((), ensure_block_Addresses ch (enhance_block ch (ch.blockAt n)) s, [])) ∧
    (∀ r, check_task ch n s [] = .ok r →
      ∀ tx ∈ (ch.blockAt n).transactions,
        hasTxNode r.2.1 (get_hash tx) ∧
        (matchNodes (ensure_block_Addresses ch (enhance_block ch (ch.blockAt n)) s)
            ["Transaction"] [("hash", Val.s (get_hash tx))] = [] →
          (∀ t ∈ lookupD (enhance_block ch (ch.blockAt n)).transfers (get_hash tx) [],
            hasTransferNode r.2.1 t) ∧
          hasContainsEdge r.2.1 (ch.blockAt n).number (get_hash tx))) := by
  constructor
  · intro h2
    exact c3_present_block_checks_only_txs ch n s h1 h2
  · intro r hrun tx htx
    obtain ⟨nd, hnd⟩ := Option.isSome_iff_exists.mp h1
    have e1 : check_task ch n s [] =
        (match get_local_Block
            (ensure_block_Addresses ch (enhance_block ch (ch.blockAt n)) s) n with
          | some _ => checkPresentLoop (enhance_block ch (ch.blockAt n))
              (enhance_block ch (ch.blockAt n)).raw.transactions
          | none => parse_block_header (enhance_block ch (ch.blockAt n)) >>= fun _ =>
              checkMissingLoop (enhance_block ch (ch.blockAt n))
                (enhance_block ch (ch.blockAt n)).raw.transactions none)
          (ensure_block_Addresses ch (enhance_block ch (ch.blockAt n)) s) [] := rfl
    rw [e1, hnd] at hrun
    have hrep := checkPresentLoop_repair (enhance_block ch (ch.blockAt n))
      (enhance_block ch (ch.blockAt n)).raw.transactions
      (ensure_block_Addresses ch (enhance_block ch (ch.blockAt n)) s) [] r hrun tx
      (by rw [enhance_block_raw]; exact htx)
    rw [enhance_block_raw] at hrep
    exact hrep

theorem c3_present_branch_spec_witness :
    hasTxNode (emStore (check_task ch3 7 s11 [])) (get_hash t3) ∧
    (∀ t ∈ lookupD (enhance_block ch3 (ch3.blockAt 7)).transfers (get_hash t3) [],
      hasTransferNode (emStore (check_task ch3 7 s11 [])) t) ∧
    hasContainsEdge (emStore (check_task ch3 7 s11 []))
      (ch3.blockAt 7).number (get_hash t3) := by
  have h := (c3_present_branch_spec ch3 7 s11 (by decide)).2
    ((), emStore (check_task ch3 7 s11 []), emLog (check_task ch3 7 s11 []))
    (by rfl) t3 (by exact List.Mem.head [])
  exact ⟨h.1, (h.2 (by decide)).1, (h.2 (by decide)).2⟩
